import Mathlib

/-! # Brotocol: a single-wire master/slave protocol

Shallow embedding of `src/slave/brotocol_slave.c` (the slave receiver state
machine) and of `main` in `src/master/brotocol-send.c` (the master transmit
sequence), followed by the properties established about them.

Conventions of the embedding.

* The global `hbro` becomes an explicit value of `brotocol_slave_t` that every
  function takes and returns.
* Calls that leave the module (`Brotocol_Set_Bus_Low`, `Brotocol_Release_Bus`,
  `Brotocol_Wait_Ms`, `Brotocol_Rx_Callback`) are recorded, in program order, in
  a list of `call_t` returned next to the new state.  A recorded
  `Brotocol_Rx_Callback` also carries the value `hbro` has at the moment of the
  call, which is what the handler can observe through the global.
* `Brotocol_Get_Bus_State ()` is an input: the level it returns is an argument.
* `uint32_t` and `uint8_t` fields are natural numbers; the two places where the
  code computes on them (`|=` of a shifted one, `++`) reduce modulo `2 ^ 32` and
  `2 ^ 8`.  For a shift count of 32 or more, which C leaves undefined, this is
  the value the Cortex-M0 target computes (a register shift that yields zero).
-/

namespace Brotocol

/-! ## Configuration (`brotocol_slave.h`, `brotocol-send.c`) -/

def ADDRESS_N : Nat := 5
def DATA_N : Nat := 1
def TIME_UNIT_MS : Nat := 10

/-! ## Slave data model (`brotocol_slave.h`) -/

inductive bus_state_t where
  | BUS_LOW
  | BUS_HIGH
deriving DecidableEq

inductive brotocol_state_t where
  | BROTOCOL_IDLE
  | BROTOCOL_ADDRESS
  | BROTOCOL_DATA
  | BROTOCOL_END
deriving DecidableEq

structure brotocol_slave_t where
  address : Nat
  my_address : Nat
  data : Nat
  brotocol_state : brotocol_state_t
  is_waiting : Nat
  is_acking : Nat
  bus_sampled_at_wait_end : bus_state_t
  current_bit : Nat
deriving DecidableEq

/-- Calls made by the slave core to the HAL and to the user handler. -/
inductive call_t where
  | Brotocol_Set_Bus_Low
  | Brotocol_Release_Bus
  | Brotocol_Wait_Ms (duration_ms : Nat)
  | Brotocol_Rx_Callback (data : Nat) (hbro : brotocol_slave_t)
deriving DecidableEq

open bus_state_t brotocol_state_t call_t

/-! ## Slave operations (`brotocol_slave.c`) -/

/-- `Brotocol_Reset`, lines 21-31. -/
def Brotocol_Reset (hbro : brotocol_slave_t) : brotocol_slave_t × List call_t :=
  ({ hbro with
      address := 0
      data := 0
      brotocol_state := BROTOCOL_IDLE
      is_waiting := 0
      is_acking := 0
      bus_sampled_at_wait_end := BUS_HIGH
      current_bit := 0 },
   [Brotocol_Release_Bus])

/-- The object `hbro` before `Brotocol_Slave_Start` runs: static storage, all zero. -/
def hbro_zero : brotocol_slave_t :=
  { address := 0, my_address := 0, data := 0, brotocol_state := BROTOCOL_IDLE,
    is_waiting := 0, is_acking := 0, bus_sampled_at_wait_end := BUS_LOW, current_bit := 0 }

/-- `Brotocol_Slave_Start`, lines 14-19; the argument is what `Brotocol_Get_Address ()`
returns (`Brotocol_HAL_Init` has an empty body). -/
def Brotocol_Slave_Start (get_address : Nat) : brotocol_slave_t × List call_t :=
  Brotocol_Reset { hbro_zero with my_address := get_address }

/-- `Brotocol_Process_Wait_End`, lines 38-50; `bus` is the level read on line 40. -/
def Brotocol_Process_Wait_End (hbro : brotocol_slave_t) (bus : bus_state_t) :
    brotocol_slave_t × List call_t :=
  let h1 := { hbro with bus_sampled_at_wait_end := bus, is_waiting := 0 }
  let r2 : brotocol_slave_t × List call_t :=
    if h1.is_acking ≠ 0 then ({ h1 with is_acking := 0 }, [Brotocol_Release_Bus])
    else (h1, [])
  if r2.1.brotocol_state = BROTOCOL_END then
    let r3 := Brotocol_Reset r2.1
    (r3.1, r2.2 ++ [Brotocol_Rx_Callback r2.1.data r2.1] ++ r3.2)
  else r2

/-- `Brotocol_Process_Brotocol`, lines 52-168. -/
def Brotocol_Process_Brotocol (hbro : brotocol_slave_t) (bus_state : bus_state_t) :
    brotocol_slave_t × List call_t :=
  match hbro.brotocol_state with
  | BROTOCOL_IDLE =>
    if bus_state = BUS_LOW then
      if hbro.is_waiting = 0 then
        ({ hbro with is_waiting := 1 }, [Brotocol_Wait_Ms (15 * TIME_UNIT_MS)])
      else
        Brotocol_Reset hbro
    else
      if hbro.is_waiting = 0 then
        if hbro.bus_sampled_at_wait_end = BUS_LOW then
          ({ hbro with brotocol_state := BROTOCOL_ADDRESS }, [])
        else
          Brotocol_Reset hbro
      else
        Brotocol_Reset hbro
  | BROTOCOL_ADDRESS =>
    if bus_state = BUS_LOW then
      if hbro.is_waiting = 0 then
        if hbro.current_bit < ADDRESS_N then
          ({ hbro with is_waiting := 1 }, [Brotocol_Wait_Ms (5 * TIME_UNIT_MS)])
        else
          if hbro.address = hbro.my_address then
            ({ hbro with
                is_acking := 1
                is_waiting := 1
                current_bit := 0
                brotocol_state := BROTOCOL_DATA },
             [Brotocol_Set_Bus_Low, Brotocol_Wait_Ms (8 * TIME_UNIT_MS)])
          else
            Brotocol_Reset hbro
      else
        Brotocol_Reset hbro
    else
      if hbro.is_waiting = 0 then
        if hbro.bus_sampled_at_wait_end = BUS_LOW then
          ({ hbro with
              address := (hbro.address ||| (1 <<< hbro.current_bit)) % 2 ^ 32
              current_bit := (hbro.current_bit + 1) % 2 ^ 8 }, [])
        else
          Brotocol_Reset hbro
      else
        ({ hbro with current_bit := (hbro.current_bit + 1) % 2 ^ 8 }, [])
  | BROTOCOL_DATA =>
    if bus_state = BUS_LOW then
      if hbro.is_waiting = 0 then
        if hbro.current_bit < DATA_N then
          ({ hbro with is_waiting := 1 }, [Brotocol_Wait_Ms (5 * TIME_UNIT_MS)])
        else
          ({ hbro with
              is_acking := 1
              is_waiting := 1
              brotocol_state := BROTOCOL_END },
           [Brotocol_Set_Bus_Low, Brotocol_Wait_Ms (8 * TIME_UNIT_MS)])
      else
        Brotocol_Reset hbro
    else
      if hbro.is_waiting = 0 then
        if hbro.bus_sampled_at_wait_end = BUS_LOW then
          ({ hbro with
              data := (hbro.data ||| (1 <<< hbro.current_bit)) % 2 ^ 32
              current_bit := (hbro.current_bit + 1) % 2 ^ 8 }, [])
        else
          Brotocol_Reset hbro
      else
        ({ hbro with current_bit := (hbro.current_bit + 1) % 2 ^ 8 }, [])
  | BROTOCOL_END =>
    Brotocol_Reset hbro

/-! ## Event delivery

The platform invokes `Brotocol_Process_Bus_State_Change` on a bus edge (it
reads the level and passes it on, lines 33-36) and `Brotocol_Process_Wait_End`
when the timer elapses. -/

inductive event_t where
  | level (bus_state : bus_state_t)
  | timer (bus : bus_state_t)
deriving DecidableEq

open event_t

/-- One handler invocation. -/
def handle (hbro : brotocol_slave_t) : event_t → brotocol_slave_t × List call_t
  | level bus_state => Brotocol_Process_Brotocol hbro bus_state
  | timer bus => Brotocol_Process_Wait_End hbro bus

/-- Handlers run to completion one after the other; the calls accumulate in order. -/
def run (hbro : brotocol_slave_t) : List event_t → brotocol_slave_t × List call_t
  | [] => (hbro, [])
  | e :: es =>
    let r := handle hbro e
    let q := run r.1 es
    (q.1, r.2 ++ q.2)

/-- The arguments of the `Brotocol_Rx_Callback` calls in a call sequence, in order. -/
def rx_values : List call_t → List Nat
  | [] => []
  | Brotocol_Rx_Callback data _ :: cs => data :: rx_values cs
  | _ :: cs => rx_values cs

/-- The values of `hbro` seen by the `Brotocol_Rx_Callback` calls, in order. -/
def rx_observed : List call_t → List brotocol_slave_t
  | [] => []
  | Brotocol_Rx_Callback _ hbro :: cs => hbro :: rx_observed cs
  | _ :: cs => rx_observed cs

/-- Number of `Brotocol_Set_Bus_Low` calls in a call sequence. -/
def bus_low_count (cs : List call_t) : Nat :=
  cs.count Brotocol_Set_Bus_Low

/-! ## Frames as event sequences -/

/-- Bit `i` of `v`, as the master tests it: `(v >> i) & 0x1`. -/
def bit_at (v i : Nat) : Bool :=
  (v >>> i) &&& 1 != 0

/-- Start symbol seen by the slave: falling edge, the 15-unit timer elapsing while
the line is still Low, rising edge. -/
def start_events : List event_t :=
  [level BUS_LOW, timer BUS_LOW, level BUS_HIGH]

/-- A bit symbol seen by the slave: for 1 the 5-unit timer elapses (reading Low)
before the rising edge, for 0 the rising edge comes first. -/
def bit_events (b : Bool) : List event_t :=
  if b then [level BUS_LOW, timer BUS_LOW, level BUS_HIGH]
  else [level BUS_LOW, level BUS_HIGH, timer BUS_HIGH]

/-- The `n` bit symbols of `v`, least significant bit first. -/
def field_events (n v : Nat) : List event_t :=
  (List.range n).flatMap (fun i => bit_events (bit_at v i))

/-- Acknowledgment window: falling edge of the query, then the 8-unit timer
elapsing while the slave itself holds the line Low. -/
def ack_events : List event_t :=
  [level BUS_LOW, timer BUS_LOW]

/-- A well-formed frame for address `a` and data `d`. -/
def frame_events (a d : Nat) : List event_t :=
  start_events ++ field_events ADDRESS_N a ++ ack_events
    ++ field_events DATA_N d ++ ack_events

/-- The calls made by each handler invocation, one list per event. -/
def calls_by_event (hbro : brotocol_slave_t) : List event_t → List (List call_t)
  | [] => []
  | e :: es => (handle hbro e).2 :: calls_by_event (handle hbro e).1 es

/-- The transitions on which `Brotocol_Process_Brotocol` takes a branch that the
source marks as an error (the branches whose whole body is `Brotocol_Reset ()`,
the address-mismatch branch apart). -/
def is_violation (hbro : brotocol_slave_t) (bus_state : bus_state_t) : Prop :=
  match hbro.brotocol_state with
  | BROTOCOL_IDLE =>
    (bus_state = BUS_LOW ∧ hbro.is_waiting ≠ 0)
      ∨ (bus_state = BUS_HIGH ∧ hbro.is_waiting = 0 ∧ hbro.bus_sampled_at_wait_end ≠ BUS_LOW)
      ∨ (bus_state = BUS_HIGH ∧ hbro.is_waiting ≠ 0)
  | BROTOCOL_ADDRESS =>
    (bus_state = BUS_LOW ∧ hbro.is_waiting ≠ 0)
      ∨ (bus_state = BUS_HIGH ∧ hbro.is_waiting = 0 ∧ hbro.bus_sampled_at_wait_end ≠ BUS_LOW)
  | BROTOCOL_DATA =>
    (bus_state = BUS_LOW ∧ hbro.is_waiting ≠ 0)
      ∨ (bus_state = BUS_HIGH ∧ hbro.is_waiting = 0 ∧ hbro.bus_sampled_at_wait_end ≠ BUS_LOW)
  | BROTOCOL_END => True

/-- The address-mismatch transition: a field-complete falling edge in
`BROTOCOL_ADDRESS` with an accumulated address that is not `my_address`. -/
def is_mismatch (hbro : brotocol_slave_t) (bus_state : bus_state_t) : Prop :=
  hbro.brotocol_state = BROTOCOL_ADDRESS ∧ bus_state = BUS_LOW ∧ hbro.is_waiting = 0
    ∧ ¬ hbro.current_bit < ADDRESS_N ∧ hbro.address ≠ hbro.my_address

/-- The phase changes of the receiver: Idle to Idle or ReceivingAddress,
ReceivingAddress to itself, ReceivingData or Idle, ReceivingData to itself,
Done or Idle, and Done to Idle. -/
def phase_change_allowed : brotocol_state_t → brotocol_state_t → Bool
  | BROTOCOL_IDLE, BROTOCOL_IDLE => true
  | BROTOCOL_IDLE, BROTOCOL_ADDRESS => true
  | BROTOCOL_ADDRESS, BROTOCOL_ADDRESS => true
  | BROTOCOL_ADDRESS, BROTOCOL_DATA => true
  | BROTOCOL_ADDRESS, BROTOCOL_IDLE => true
  | BROTOCOL_DATA, BROTOCOL_DATA => true
  | BROTOCOL_DATA, BROTOCOL_END => true
  | BROTOCOL_DATA, BROTOCOL_IDLE => true
  | BROTOCOL_END, BROTOCOL_IDLE => true
  | _, _ => false

/-- The durations, in milliseconds, of the timers armed by a call sequence. -/
def armed : List call_t → List Nat
  | [] => []
  | Brotocol_Wait_Ms duration_ms :: cs => duration_ms :: armed cs
  | _ :: cs => armed cs

/-- The output of the slave on the line after a call sequence, as a flag that
`Brotocol_Set_Bus_Low` sets and `Brotocol_Release_Bus` clears; the first
argument is the flag before the calls. -/
def driving_low : Bool → List call_t → Bool
  | b, [] => b
  | _, Brotocol_Set_Bus_Low :: cs => driving_low true cs
  | _, Brotocol_Release_Bus :: cs => driving_low false cs
  | b, _ :: cs => driving_low b cs

/-- Whether an event sequence has no two High level events without a Low level
event between them; `high` tells whether the level event before the sequence,
if any, was High.  Timer expiries may come anywhere. -/
def no_repeated_high : Bool → List event_t → Bool
  | _, [] => true
  | high, timer _ :: es => no_repeated_high high es
  | _, level BUS_LOW :: es => no_repeated_high false es
  | high, level BUS_HIGH :: es => !high && no_repeated_high true es

/-- Whether the last level event of `es` (or, failing one, the level event
before `es`, given by `high`) was High. -/
def last_level_high : Bool → List event_t → Bool
  | high, [] => high
  | high, timer _ :: es => last_level_high high es
  | _, level BUS_LOW :: es => last_level_high false es
  | _, level BUS_HIGH :: es => last_level_high true es

/-- The handler of `e` in state `hbro` executes `hbro.address |= 0x1 << hbro.current_bit`
(line 112). -/
def shifts_address (hbro : brotocol_slave_t) (e : event_t) : Prop :=
  hbro.brotocol_state = BROTOCOL_ADDRESS ∧ e = level BUS_HIGH ∧ hbro.is_waiting = 0
    ∧ hbro.bus_sampled_at_wait_end = BUS_LOW

/-- The handler of `e` in state `hbro` executes `hbro.data |= 0x1 << hbro.current_bit`
(line 150). -/
def shifts_data (hbro : brotocol_slave_t) (e : event_t) : Prop :=
  hbro.brotocol_state = BROTOCOL_DATA ∧ e = level BUS_HIGH ∧ hbro.is_waiting = 0
    ∧ hbro.bus_sampled_at_wait_end = BUS_LOW

/-- The bounds kept by every handler as long as no High level event repeats: in
Idle the accumulators and `current_bit` are zero; in ReceivingAddress and
ReceivingData the active accumulator has no bit at or above `current_bit`,
which is at most the field width and, unless the last level event was High
(`high`), below it; in Done the data accumulator fits the data width. -/
def width_invariant (high : Bool) (hbro : brotocol_slave_t) : Prop :=
  match hbro.brotocol_state with
  | BROTOCOL_IDLE => hbro.address = 0 ∧ hbro.data = 0 ∧ hbro.current_bit = 0
  | BROTOCOL_ADDRESS =>
    hbro.data = 0 ∧ hbro.address < 2 ^ hbro.current_bit ∧ hbro.current_bit ≤ ADDRESS_N
      ∧ (high = false → hbro.current_bit < ADDRESS_N)
  | BROTOCOL_DATA =>
    hbro.data < 2 ^ hbro.current_bit ∧ hbro.current_bit ≤ DATA_N
      ∧ (high = false → hbro.current_bit < DATA_N)
  | BROTOCOL_END => hbro.data < 2 ^ DATA_N ∧ hbro.current_bit ≤ DATA_N

/-! ## Master (`brotocol-send.c`)

`main` is embedded as a function from the parsed command line and the two
levels read at the acknowledgment samples to the exit status and the sequence
of HAL calls.  The pigpio calls are taken to succeed (the `exit (EXIT_HAL)`
paths are not part of the embedding), and the diagnostic output of `wait`,
`usage` and `main`, with the bus reads made only to print it, is left out. -/

def EXIT_OK : Nat := 0x00
def EXIT_ADDR_NACK : Nat := 0x01
def EXIT_DATA_NACK : Nat := 0x02
def EXIT_HAL : Nat := 0x04
def EXIT_ERROR : Nat := 0x08

/-- HAL calls made by the master. -/
inductive hal_t where
  | config_bus
  | set_bus_state (state : bus_state_t)
  | delay_ms (duration_ms : Nat)
  | get_bus_state (read : bus_state_t)
deriving DecidableEq

open hal_t

/-- `wait`, lines 116-125: `unit_times` delays of one time unit. -/
def wait (unit_times : Nat) : List hal_t :=
  List.replicate unit_times (delay_ms TIME_UNIT_MS)

/-- One option as `getopt` returns it, the argument already converted by
`(int) strtol (optarg, NULL, 0)`. -/
inductive opt_t where
  | a (optarg : Int)
  | d (optarg : Int)
  | q
  | unknown
deriving DecidableEq

/-- The locals of `main` that the option loop assigns. -/
structure locals_t where
  address : Int
  data : Int
  is_address_set : Bool
  is_data_set : Bool
  is_quiet : Bool
deriving DecidableEq

/-- The option loop of `main`, lines 136-161: the locals after the last option, or
the exit status of the `return` taken inside the loop.  The bounds `0x1 << ADDRESS_N`
and `0x1 << DATA_N` are written as `0x1 * 2 ^ n`. -/
def getopt_loop (v : locals_t) : List opt_t → Except Nat locals_t
  | [] => .ok v
  | opt_t.a optarg :: rest =>
    if optarg ≥ (0x1 : Int) * 2 ^ ADDRESS_N then .error EXIT_ERROR
    else getopt_loop { v with address := optarg, is_address_set := true } rest
  | opt_t.d optarg :: rest =>
    if optarg ≥ (0x1 : Int) * 2 ^ DATA_N then .error EXIT_ERROR
    else getopt_loop { v with data := optarg, is_data_set := true } rest
  | opt_t.q :: rest => getopt_loop { v with is_quiet := true } rest
  | opt_t.unknown :: _ => .error EXIT_ERROR

/-- The symbol loops of `main`, lines 191-202 and 215-226: for `i` from `0` to
`n - 1`, drive Low, then keep it 8 units and release for 2 when
`(value >> i) & 0x1` is set, keep it 2 units and release for 8 otherwise. -/
def send_symbols (n : Nat) (value : Int) : List hal_t :=
  (List.range n).flatMap fun i =>
    set_bus_state BUS_LOW ::
      (if Int.land (value >>> i) 0x1 ≠ 0 then
        wait 8 ++ [set_bus_state BUS_HIGH] ++ wait 2
      else
        wait 2 ++ [set_bus_state BUS_HIGH] ++ wait 8)

/-- Lines 173-242 of `main`: the transmission for the validated `address` and
`data`; `ack1` and `ack2` are the levels read on lines 209 and 233. -/
def transmit (address data : Int) (ack1 ack2 : bus_state_t) : Nat × List hal_t :=
  let t0 : List hal_t :=
    [config_bus]
      ++ [set_bus_state BUS_LOW] ++ wait 18 ++ [set_bus_state BUS_HIGH] ++ wait 2
      ++ send_symbols ADDRESS_N address
      ++ [set_bus_state BUS_LOW] ++ wait 2 ++ [set_bus_state BUS_HIGH] ++ wait 3
      ++ [get_bus_state ack1]
  if ack1 = BUS_HIGH then (EXIT_ADDR_NACK, t0)
  else
    let t1 : List hal_t :=
      t0 ++ wait 5
        ++ send_symbols DATA_N data
        ++ [set_bus_state BUS_LOW] ++ wait 2 ++ [set_bus_state BUS_HIGH] ++ wait 3
        ++ [get_bus_state ack2]
    if ack2 = BUS_HIGH then (EXIT_DATA_NACK, t1)
    else (EXIT_OK, t1 ++ wait 5)

/-- `main`, lines 127-243. -/
def main (argv : List opt_t) (ack1 ack2 : bus_state_t) : Nat × List hal_t :=
  match getopt_loop
      { address := 0, data := 0, is_address_set := false, is_data_set := false,
        is_quiet := false } argv with
  | .error status => (status, [])
  | .ok v =>
    if v.is_address_set && v.is_data_set then transmit v.address v.data ack1 ack2
    else (EXIT_ERROR, [])

/-! ### Symbol shapes of the protocol, in time units -/

/-- Drive the line Low for `low` units, then release it for `high` units. -/
def shape (low high : Nat) : List hal_t :=
  [set_bus_state BUS_LOW] ++ wait low ++ [set_bus_state BUS_HIGH] ++ wait high

/-- Start symbol: Low 18, High 2. -/
def start_shape : List hal_t := shape 18 2

/-- Bit symbol: Low 8, High 2 for a one; Low 2, High 8 for a zero. -/
def bit_shape (b : Bool) : List hal_t :=
  if b then shape 8 2 else shape 2 8

/-- The part of an Ack query up to and including the sample: Low 2, release,
hold 3, read the line. -/
def ack_query_head (read : bus_state_t) : List hal_t :=
  shape 2 3 ++ [get_bus_state read]

/-- A complete Ack query: the head, then hold 5 more units. -/
def ack_query_shape (read : bus_state_t) : List hal_t :=
  ack_query_head read ++ wait 5

/-- The bit symbols of the low `n` bits of `value`, least significant first. -/
def field_shape (n : Nat) (value : Int) : List hal_t :=
  (List.range n).flatMap fun i => bit_shape (value.testBit i)

/-- Total time, in milliseconds, spent in `delay_ms` by a sequence of HAL calls. -/
def duration_ms : List hal_t → Nat
  | [] => 0
  | delay_ms t :: cs => t + duration_ms cs
  | _ :: cs => duration_ms cs

/-- The level last set on the line by `set_bus_state` in a sequence of HAL calls. -/
def last_drive : List hal_t → Option bus_state_t
  | [] => none
  | set_bus_state state :: cs =>
    match last_drive cs with
    | some later => some later
    | none => some state
  | _ :: cs => last_drive cs

/-! ## Slave: running event sequences -/

theorem run_append (hbro : brotocol_slave_t) (es fs : List event_t) :
    run hbro (es ++ fs) =
      ((run (run hbro es).1 fs).1, (run hbro es).2 ++ (run (run hbro es).1 fs).2) := by
  induction es generalizing hbro with
  | nil => simp [run]
  | cons e es ih => simp [run, ih, List.append_assoc]

theorem run_calls_by_event (hbro : brotocol_slave_t) (es : List event_t) :
    (run hbro es).2 = (calls_by_event hbro es).flatten := by
  induction es generalizing hbro with
  | nil => simp [run, calls_by_event]
  | cons e es ih => simp [run, calls_by_event, ih]

/-- The Start symbol takes a freshly started slave to `BROTOCOL_ADDRESS`. -/
theorem run_start_events (own : Nat) :
    run (Brotocol_Slave_Start own).1 start_events =
      (⟨0, own, 0, BROTOCOL_ADDRESS, 0, 0, BUS_LOW, 0⟩, [Brotocol_Wait_Ms 150]) := by
  simp [run, handle, start_events, Brotocol_Slave_Start, Brotocol_Reset, hbro_zero,
    Brotocol_Process_Brotocol, Brotocol_Process_Wait_End, TIME_UNIT_MS]

/-- One bit symbol in `BROTOCOL_ADDRESS` with no timer outstanding. -/
theorem run_bit_events_address (a own d k : Nat) (s : bus_state_t) (b : Bool)
    (hk : k < ADDRESS_N) :
    run ⟨a, own, d, BROTOCOL_ADDRESS, 0, 0, s, k⟩ (bit_events b) =
      (⟨if b then (a ||| (1 <<< k)) % 2 ^ 32 else a, own, d, BROTOCOL_ADDRESS, 0, 0,
          if b then BUS_LOW else BUS_HIGH, (k + 1) % 2 ^ 8⟩,
        [Brotocol_Wait_Ms 50]) := by
  cases b <;>
    simp [run, handle, bit_events, Brotocol_Process_Brotocol, Brotocol_Process_Wait_End,
      TIME_UNIT_MS, hk]

theorem low_bits_step : ∀ v < 32, ∀ k < 5,
    (bit_at v k = true → ((v % 2 ^ k) ||| (1 <<< k)) % 2 ^ 32 = v % 2 ^ (k + 1))
      ∧ (bit_at v k = false → v % 2 ^ k = v % 2 ^ (k + 1))
      ∧ (k + 1) % 2 ^ 8 = k + 1 := by
  decide

theorem field_events_succ (k v : Nat) :
    field_events (k + 1) v = field_events k v ++ bit_events (bit_at v k) := by
  simp [field_events, List.range_succ, List.flatMap_append]

/-- The first `k` address symbols of `v` leave its low `k` bits in the accumulator. -/
theorem run_field_events_address (own v : Nat) (hv : v < 2 ^ ADDRESS_N) :
    ∀ k, k ≤ ADDRESS_N → ∃ s,
      run ⟨0, own, 0, BROTOCOL_ADDRESS, 0, 0, BUS_LOW, 0⟩ (field_events k v) =
        (⟨v % 2 ^ k, own, 0, BROTOCOL_ADDRESS, 0, 0, s, k⟩,
          List.replicate k (Brotocol_Wait_Ms 50)) := by
  intro k
  induction k with
  | zero => intro _; exact ⟨BUS_LOW, by simp [field_events, run, Nat.mod_one]⟩
  | succ k ih =>
    intro hk
    have hk5 : k < 5 := by simp only [ADDRESS_N] at hk; omega
    have hv32 : v < 32 := by simpa [ADDRESS_N] using hv
    obtain ⟨s, hs⟩ := ih (Nat.le_of_succ_le hk)
    obtain ⟨h1, h0, hw⟩ := low_bits_step v hv32 k hk5
    refine ⟨if bit_at v k then BUS_LOW else BUS_HIGH, ?_⟩
    rw [field_events_succ, run_append, hs]
    simp only []
    rw [run_bit_events_address _ _ _ _ _ _ (by simpa [ADDRESS_N] using hk5), hw]
    cases hb : bit_at v k
    · simpa [List.replicate_succ'] using h0 hb
    · simpa [List.replicate_succ'] using h1 hb

/-! ## Frame acceptance -/

set_option maxRecDepth 1000000 in
/-- C1: for every address `a` below `2 ^ ADDRESS_N` and data `d` below `2 ^ DATA_N`,
a slave started with own address `a` that is fed the events of the
well-formed frame for `a` and `d` ends in its reset state, calls
`Brotocol_Rx_Callback` exactly once, with argument `d`, and calls
`Brotocol_Set_Bus_Low` exactly twice: in the handler of the falling edge that
opens each Ack window, the release following in the handler of the next
timer expiry.  The last conjunct lists the calls made by each handler. -/
theorem frame_accepted (a d : Nat) (ha : a < 2 ^ ADDRESS_N) (hd : d < 2 ^ DATA_N) :
    (run (Brotocol_Slave_Start a).1 (frame_events a d)).1 = (Brotocol_Slave_Start a).1
    ∧ rx_values (run (Brotocol_Slave_Start a).1 (frame_events a d)).2 = [d]
    ∧ bus_low_count (run (Brotocol_Slave_Start a).1 (frame_events a d)).2 = 2
    ∧ calls_by_event (Brotocol_Slave_Start a).1 (frame_events a d) =
        [[Brotocol_Wait_Ms 150], [], []]
          ++ (List.replicate ADDRESS_N [[Brotocol_Wait_Ms 50], [], []]).flatten
          ++ [[Brotocol_Set_Bus_Low, Brotocol_Wait_Ms 80], [Brotocol_Release_Bus]]
          ++ (List.replicate DATA_N [[Brotocol_Wait_Ms 50], [], []]).flatten
          ++ [[Brotocol_Set_Bus_Low, Brotocol_Wait_Ms 80],
              [Brotocol_Release_Bus,
               Brotocol_Rx_Callback d ⟨a, a, d, BROTOCOL_END, 0, 0, BUS_LOW, DATA_N⟩,
               Brotocol_Release_Bus]] := by
  have key : ∀ a < 2 ^ ADDRESS_N, ∀ d < 2 ^ DATA_N,
      (run (Brotocol_Slave_Start a).1 (frame_events a d)).1 = (Brotocol_Slave_Start a).1
      ∧ rx_values (run (Brotocol_Slave_Start a).1 (frame_events a d)).2 = [d]
      ∧ bus_low_count (run (Brotocol_Slave_Start a).1 (frame_events a d)).2 = 2
      ∧ calls_by_event (Brotocol_Slave_Start a).1 (frame_events a d) =
          [[Brotocol_Wait_Ms 150], [], []]
            ++ (List.replicate ADDRESS_N [[Brotocol_Wait_Ms 50], [], []]).flatten
            ++ [[Brotocol_Set_Bus_Low, Brotocol_Wait_Ms 80], [Brotocol_Release_Bus]]
            ++ (List.replicate DATA_N [[Brotocol_Wait_Ms 50], [], []]).flatten
            ++ [[Brotocol_Set_Bus_Low, Brotocol_Wait_Ms 80],
                [Brotocol_Release_Bus,
                 Brotocol_Rx_Callback d ⟨a, a, d, BROTOCOL_END, 0, 0, BUS_LOW, DATA_N⟩,
                 Brotocol_Release_Bus]] := by
    decide
  exact key a ha d hd

theorem frame_accepted_witness :
    (11 < 2 ^ ADDRESS_N ∧ 1 < 2 ^ DATA_N)
    ∧ (run (Brotocol_Slave_Start 11).1 (frame_events 11 1)).1 = (Brotocol_Slave_Start 11).1
    ∧ rx_values (run (Brotocol_Slave_Start 11).1 (frame_events 11 1)).2 = [1]
    ∧ bus_low_count (run (Brotocol_Slave_Start 11).1 (frame_events 11 1)).2 = 2 :=
  have h := frame_accepted 11 1 (by decide) (by decide)
  ⟨⟨by decide, by decide⟩, h.1, h.2.1, h.2.2.1⟩

/-! ## Address mismatch -/

/-- C2: for every own address and every five-bit address different from it, the
Start symbol, the five address symbols (least significant bit first) and the
falling edge that opens the Ack query never call `Brotocol_Set_Bus_Low`, never
call `Brotocol_Rx_Callback`, and leave the slave in its reset state. -/
theorem address_mismatch_ignored (own address2 : Nat) (h2 : address2 < 2 ^ ADDRESS_N)
    (hne : address2 ≠ own) :
    (run (Brotocol_Slave_Start own).1
        (start_events ++ field_events ADDRESS_N address2 ++ [level BUS_LOW])).1
      = (Brotocol_Slave_Start own).1
    ∧ (Brotocol_Slave_Start own).1.brotocol_state = BROTOCOL_IDLE
    ∧ bus_low_count (run (Brotocol_Slave_Start own).1
        (start_events ++ field_events ADDRESS_N address2 ++ [level BUS_LOW])).2 = 0
    ∧ rx_values (run (Brotocol_Slave_Start own).1
        (start_events ++ field_events ADDRESS_N address2 ++ [level BUS_LOW])).2 = []
    ∧ (run (Brotocol_Slave_Start own).1
        (start_events ++ field_events ADDRESS_N address2 ++ [level BUS_LOW])).2
      = Brotocol_Wait_Ms 150 :: List.replicate ADDRESS_N (Brotocol_Wait_Ms 50)
          ++ [Brotocol_Release_Bus] := by
  obtain ⟨s, hs⟩ := run_field_events_address own address2 h2 ADDRESS_N (Nat.le_refl _)
  have hmod : address2 % 2 ^ ADDRESS_N = address2 := Nat.mod_eq_of_lt h2
  rw [hmod] at hs
  have hrun : run (Brotocol_Slave_Start own).1
      (start_events ++ field_events ADDRESS_N address2 ++ [level BUS_LOW])
      = ((Brotocol_Slave_Start own).1,
          Brotocol_Wait_Ms 150 :: List.replicate ADDRESS_N (Brotocol_Wait_Ms 50)
            ++ [Brotocol_Release_Bus]) := by
    rw [run_append, run_append, run_start_events]
    simp only []
    rw [hs]
    simp [run, handle, Brotocol_Process_Brotocol, Brotocol_Reset, Brotocol_Slave_Start,
      hbro_zero, ADDRESS_N, hne]
  rw [hrun]
  refine ⟨rfl, rfl, ?_, ?_, rfl⟩
  · simp [bus_low_count, ADDRESS_N, List.replicate]
  · simp [rx_values, ADDRESS_N, List.replicate]

theorem address_mismatch_ignored_witness :
    (12 < 2 ^ ADDRESS_N ∧ 12 ≠ 11)
    ∧ (run (Brotocol_Slave_Start 11).1
        (start_events ++ field_events ADDRESS_N 12 ++ [level BUS_LOW])).1
      = (Brotocol_Slave_Start 11).1
    ∧ (Brotocol_Slave_Start 11).1.brotocol_state = BROTOCOL_IDLE
    ∧ bus_low_count (run (Brotocol_Slave_Start 11).1
        (start_events ++ field_events ADDRESS_N 12 ++ [level BUS_LOW])).2 = 0
    ∧ rx_values (run (Brotocol_Slave_Start 11).1
        (start_events ++ field_events ADDRESS_N 12 ++ [level BUS_LOW])).2 = []
    ∧ (run (Brotocol_Slave_Start 11).1
        (start_events ++ field_events ADDRESS_N 12 ++ [level BUS_LOW])).2
      = Brotocol_Wait_Ms 150 :: List.replicate ADDRESS_N (Brotocol_Wait_Ms 50)
          ++ [Brotocol_Release_Bus] :=
  ⟨⟨by decide, by decide⟩, address_mismatch_ignored 11 12 (by decide) (by decide)⟩

/-! ## Master transmit sequence -/

theorem ldiff_one (x : Nat) : Nat.ldiff 1 x = (x + 1) % 2 := by
  apply Nat.eq_of_testBit_eq
  intro i
  rw [Nat.testBit_ldiff]
  cases i with
  | zero =>
    rcases Nat.mod_two_eq_zero_or_one x with h | h
    · have h2 : (x + 1) % 2 = 1 := by omega
      simp [Nat.testBit_zero, h, h2]
    · have h2 : (x + 1) % 2 = 0 := by omega
      simp [Nat.testBit_zero, h, h2]
  | succ i =>
    have h1 : Nat.testBit 1 (i + 1) = false := by simp [Nat.testBit_succ]
    have h2 : Nat.testBit ((x + 1) % 2) (i + 1) = false := by
      rcases Nat.mod_two_eq_zero_or_one (x + 1) with h | h <;> simp [h, Nat.testBit_succ]
    simp [h1, h2]

/-- The test `(value >> i) & 0x1` of the symbol loops reads bit `i` of `value`
(in two's complement for a negative `value`). -/
theorem shift_and_one_ne_zero (value : Int) (i : Nat) :
    Int.land (value >>> i) 0x1 ≠ 0 ↔ value.testBit i = true := by
  cases value with
  | ofNat m =>
    show Int.land (Int.ofNat (m >>> i)) (Int.ofNat 1) ≠ 0 ↔ Nat.testBit m i = true
    simp only [Int.land]
    rw [Nat.testBit, Nat.and_comm]
    simp
    omega
  | negSucc m =>
    show Int.land (Int.negSucc (m >>> i)) (Int.ofNat 1) ≠ 0 ↔ (!Nat.testBit m i) = true
    simp only [Int.land]
    rw [ldiff_one, Nat.testBit, Nat.and_comm, Nat.and_one_is_mod]
    simp
    omega

theorem send_symbols_eq_field_shape (n : Nat) (value : Int) :
    send_symbols n value = field_shape n value := by
  unfold send_symbols field_shape
  congr 1
  funext i
  by_cases h : value.testBit i = true
  · have h2 := (shift_and_one_ne_zero value i).mpr h
    simp [bit_shape, shape, h, h2]
  · have h2 : ¬ Int.land (value >>> i) 0x1 ≠ 0 := fun c => h ((shift_and_one_ne_zero value i).mp c)
    simp only [Bool.not_eq_true] at h
    simp [bit_shape, shape, h, h2]

theorem transmit_eq (address data : Int) (ack1 ack2 : bus_state_t) :
    transmit address data ack1 ack2 =
      if ack1 = BUS_HIGH then
        (EXIT_ADDR_NACK,
          config_bus :: (start_shape ++ field_shape ADDRESS_N address ++ ack_query_head ack1))
      else if ack2 = BUS_HIGH then
        (EXIT_DATA_NACK,
          config_bus :: (start_shape ++ field_shape ADDRESS_N address ++ ack_query_shape ack1
            ++ field_shape DATA_N data ++ ack_query_head ack2))
      else
        (EXIT_OK,
          config_bus :: (start_shape ++ field_shape ADDRESS_N address ++ ack_query_shape ack1
            ++ field_shape DATA_N data ++ ack_query_shape ack2)) := by
  simp only [transmit, send_symbols_eq_field_shape, start_shape, shape, ack_query_shape,
    ack_query_head]
  split_ifs <;> simp

theorem main_eq_transmit (address data : Int) (ack1 ack2 : bus_state_t)
    (ha : address < 2 ^ ADDRESS_N) (hd : data < 2 ^ DATA_N) :
    main [opt_t.a address, opt_t.d data] ack1 ack2 = transmit address data ack1 ack2 := by
  have ha2 : ¬ address ≥ (0x1 : Int) * 2 ^ ADDRESS_N := by simpa using ha
  have hd2 : ¬ data ≥ (0x1 : Int) * 2 ^ DATA_N := by simpa using hd
  simp only [main, getopt_loop, if_neg ha2, if_neg hd2]
  simp

theorem duration_ms_append (xs ys : List hal_t) :
    duration_ms (xs ++ ys) = duration_ms xs + duration_ms ys := by
  induction xs with
  | nil => simp [duration_ms]
  | cons x xs ih => cases x <;> simp [duration_ms, ih, Nat.add_assoc]

theorem duration_ms_wait (n : Nat) : duration_ms (wait n) = n * TIME_UNIT_MS := by
  induction n with
  | zero => simp [wait, duration_ms]
  | succ n ih =>
    simp only [wait, List.replicate_succ, duration_ms] at ih ⊢
    rw [ih]; ring

theorem duration_ms_shape (low high : Nat) :
    duration_ms (shape low high) = (low + high) * TIME_UNIT_MS := by
  have h : shape low high =
      set_bus_state BUS_LOW :: (wait low ++ set_bus_state BUS_HIGH :: wait high) := by
    simp [shape]
  rw [h]
  simp only [duration_ms, duration_ms_append, duration_ms_wait]
  ring

/-- C3: for every address in `0 .. 2 ^ ADDRESS_N - 1` and data in
`0 .. 2 ^ DATA_N - 1`, when both Ack samples read Low the master, after
configuring the bus, performs exactly the Start shape (Low 18, High 2), the
shape of bit `i` of the address for `i = 0 .. ADDRESS_N - 1` (Low 8, High 2 for
a one, Low 2, High 8 for a zero), an Ack query (Low 2, release, hold 3, sample,
hold 5), the shapes of the data bits and a second Ack query, and returns
`EXIT_OK`; a bit symbol and an Ack query last 10 time units, the Start symbol
20, and the sample of an Ack query comes 5 units after its beginning. -/
theorem master_sequence (address data : Int)
    (ha0 : 0 ≤ address) (ha : address < 2 ^ ADDRESS_N)
    (hd0 : 0 ≤ data) (hd : data < 2 ^ DATA_N) :
    main [opt_t.a address, opt_t.d data] BUS_LOW BUS_LOW =
        (EXIT_OK,
          config_bus :: (start_shape ++ field_shape ADDRESS_N address
            ++ ack_query_shape BUS_LOW ++ field_shape DATA_N data ++ ack_query_shape BUS_LOW))
    ∧ EXIT_OK = 0
    ∧ start_shape = [set_bus_state BUS_LOW] ++ wait 18 ++ [set_bus_state BUS_HIGH] ++ wait 2
    ∧ bit_shape true = [set_bus_state BUS_LOW] ++ wait 8 ++ [set_bus_state BUS_HIGH] ++ wait 2
    ∧ bit_shape false = [set_bus_state BUS_LOW] ++ wait 2 ++ [set_bus_state BUS_HIGH] ++ wait 8
    ∧ ack_query_shape BUS_LOW =
        [set_bus_state BUS_LOW] ++ wait 2 ++ [set_bus_state BUS_HIGH] ++ wait 3
          ++ [get_bus_state BUS_LOW] ++ wait 5
    ∧ duration_ms start_shape = 20 * TIME_UNIT_MS
    ∧ (∀ b, duration_ms (bit_shape b) = 10 * TIME_UNIT_MS)
    ∧ duration_ms (ack_query_shape BUS_LOW) = 10 * TIME_UNIT_MS
    ∧ duration_ms ([set_bus_state BUS_LOW] ++ wait 2 ++ [set_bus_state BUS_HIGH] ++ wait 3)
        = 5 * TIME_UNIT_MS := by
  have _ := ha0
  have _ := hd0
  refine ⟨?_, rfl, rfl, rfl, rfl, ?_, ?_, ?_, ?_, ?_⟩
  · rw [main_eq_transmit address data _ _ ha hd, transmit_eq]
    simp
  · simp [ack_query_shape, ack_query_head, shape]
  · simp [start_shape, duration_ms_shape]
  · intro b
    cases b <;> simp [bit_shape, duration_ms_shape]
  · simp [ack_query_shape, ack_query_head, duration_ms_append, duration_ms_shape,
      duration_ms_wait, duration_ms]
    ring
  · exact duration_ms_shape 2 3

theorem master_sequence_witness :
    ((0 : Int) ≤ 0x0b ∧ (0x0b : Int) < 2 ^ ADDRESS_N ∧ (0 : Int) ≤ 1 ∧ (1 : Int) < 2 ^ DATA_N)
    ∧ main [opt_t.a 0x0b, opt_t.d 1] BUS_LOW BUS_LOW =
        (EXIT_OK,
          config_bus :: (start_shape ++ field_shape ADDRESS_N 0x0b
            ++ ack_query_shape BUS_LOW ++ field_shape DATA_N 1 ++ ack_query_shape BUS_LOW)) :=
  ⟨⟨by decide, by decide, by decide, by decide⟩,
    (master_sequence 0x0b 1 (by decide) (by decide) (by decide) (by decide)).1⟩

theorem getLast_ack_query_head (xs : List hal_t) (read : bus_state_t) :
    (config_bus :: (xs ++ ack_query_head read)).getLast? = some (get_bus_state read) := by
  have h : config_bus :: (xs ++ ack_query_head read)
      = (config_bus :: (xs ++ shape 2 3)) ++ [get_bus_state read] := by
    simp [ack_query_head]
  rw [h, List.getLast?_concat]

/-- C4: for every valid address and data, a High first Ack sample makes the master
return `EXIT_ADDR_NACK` (1) with the sample as its last HAL call, so that no
data symbol and no second Ack query follow; a Low first sample and a High
second sample make it return `EXIT_DATA_NACK` (2), again with the sample as
the last HAL call; and it returns `EXIT_OK` exactly when both samples read
Low. -/
theorem master_nack (address data : Int)
    (ha0 : 0 ≤ address) (ha : address < 2 ^ ADDRESS_N)
    (hd0 : 0 ≤ data) (hd : data < 2 ^ DATA_N) :
    (∀ ack2, main [opt_t.a address, opt_t.d data] BUS_HIGH ack2 =
        (EXIT_ADDR_NACK,
          config_bus :: (start_shape ++ field_shape ADDRESS_N address
            ++ ack_query_head BUS_HIGH)))
    ∧ (∀ ack2, (main [opt_t.a address, opt_t.d data] BUS_HIGH ack2).2.getLast?
        = some (get_bus_state BUS_HIGH))
    ∧ main [opt_t.a address, opt_t.d data] BUS_LOW BUS_HIGH =
        (EXIT_DATA_NACK,
          config_bus :: (start_shape ++ field_shape ADDRESS_N address
            ++ ack_query_shape BUS_LOW ++ field_shape DATA_N data
            ++ ack_query_head BUS_HIGH))
    ∧ (main [opt_t.a address, opt_t.d data] BUS_LOW BUS_HIGH).2.getLast?
        = some (get_bus_state BUS_HIGH)
    ∧ (∀ ack1 ack2, (main [opt_t.a address, opt_t.d data] ack1 ack2).1 = EXIT_OK
        ↔ ack1 = BUS_LOW ∧ ack2 = BUS_LOW)
    ∧ EXIT_ADDR_NACK = 1 ∧ EXIT_DATA_NACK = 2 := by
  have _ := ha0
  have _ := hd0
  have h1 : ∀ ack2, main [opt_t.a address, opt_t.d data] BUS_HIGH ack2 =
      (EXIT_ADDR_NACK,
        config_bus :: (start_shape ++ field_shape ADDRESS_N address
          ++ ack_query_head BUS_HIGH)) := by
    intro ack2
    rw [main_eq_transmit address data _ _ ha hd, transmit_eq]
    simp
  have h2 : main [opt_t.a address, opt_t.d data] BUS_LOW BUS_HIGH =
      (EXIT_DATA_NACK,
        config_bus :: (start_shape ++ field_shape ADDRESS_N address
          ++ ack_query_shape BUS_LOW ++ field_shape DATA_N data
          ++ ack_query_head BUS_HIGH)) := by
    rw [main_eq_transmit address data _ _ ha hd, transmit_eq]
    simp
  refine ⟨h1, ?_, h2, ?_, ?_, rfl, rfl⟩
  · intro ack2
    rw [h1 ack2]
    exact getLast_ack_query_head _ _
  · rw [h2]
    exact getLast_ack_query_head _ _
  · intro ack1 ack2
    rw [main_eq_transmit address data _ _ ha hd, transmit_eq]
    cases ack1 <;> cases ack2 <;> simp [EXIT_OK, EXIT_ADDR_NACK, EXIT_DATA_NACK]

theorem master_nack_witness :
    ((0 : Int) ≤ 0x0b ∧ (0x0b : Int) < 2 ^ ADDRESS_N ∧ (0 : Int) ≤ 1 ∧ (1 : Int) < 2 ^ DATA_N)
    ∧ (main [opt_t.a 0x0b, opt_t.d 1] BUS_HIGH BUS_LOW).1 = EXIT_ADDR_NACK
    ∧ (main [opt_t.a 0x0b, opt_t.d 1] BUS_LOW BUS_HIGH).1 = EXIT_DATA_NACK :=
  have h := master_nack 0x0b 1 (by decide) (by decide) (by decide) (by decide)
  ⟨⟨by decide, by decide, by decide, by decide⟩,
    congrArg Prod.fst (h.1 BUS_LOW), congrArg Prod.fst h.2.2.1⟩

/-! ## Master input validation -/

/-- C5 (the code at the failing input): with `-a -1 -d 0` the option loop, which
compares only against the upper bound, accepts the address; `main` configures
the bus, transmits the five address symbols of `31` and returns `EXIT_OK` when
both Ack samples read Low, instead of returning `EXIT_ERROR` with no bus
activity. -/
theorem negative_address_is_transmitted :
    main [opt_t.a (-1), opt_t.d 0] BUS_LOW BUS_LOW =
        (EXIT_OK,
          config_bus :: (start_shape ++ field_shape ADDRESS_N 31
            ++ ack_query_shape BUS_LOW ++ field_shape DATA_N 0 ++ ack_query_shape BUS_LOW))
    ∧ (main [opt_t.a (-1), opt_t.d 0] BUS_LOW BUS_LOW).1 ≠ EXIT_ERROR
    ∧ (main [opt_t.a (-1), opt_t.d 0] BUS_LOW BUS_LOW).2 ≠ [] := by
  have h : main [opt_t.a (-1), opt_t.d 0] BUS_LOW BUS_LOW =
      (EXIT_OK,
        config_bus :: (start_shape ++ field_shape ADDRESS_N 31
          ++ ack_query_shape BUS_LOW ++ field_shape DATA_N 0 ++ ack_query_shape BUS_LOW)) := by
    have e : field_shape ADDRESS_N (-1) = field_shape ADDRESS_N 31 := by decide
    rw [main_eq_transmit (-1) 0 _ _ (by decide) (by decide), transmit_eq, e]
    simp
  refine ⟨h, ?_, ?_⟩
  · rw [h]; decide
  · rw [h]; simp

/-! ## Slave reset -/

theorem Brotocol_Reset_eq (hbro : brotocol_slave_t) :
    Brotocol_Reset hbro = ((Brotocol_Slave_Start hbro.my_address).1, [Brotocol_Release_Bus]) := by
  simp [Brotocol_Reset, Brotocol_Slave_Start, hbro_zero]

theorem process_violation (hbro : brotocol_slave_t) (bus_state : bus_state_t)
    (h : is_violation hbro bus_state) :
    Brotocol_Process_Brotocol hbro bus_state = Brotocol_Reset hbro := by
  obtain ⟨a, m, d, st, w, k, smp, cb⟩ := hbro
  cases st <;> cases bus_state <;> cases smp <;> by_cases hw : w = 0 <;>
    simp_all [is_violation, Brotocol_Process_Brotocol]

theorem process_mismatch (hbro : brotocol_slave_t) (bus_state : bus_state_t)
    (h : is_mismatch hbro bus_state) :
    Brotocol_Process_Brotocol hbro bus_state = Brotocol_Reset hbro := by
  obtain ⟨a, m, d, st, w, k, smp, cb⟩ := hbro
  obtain ⟨h1, h2, h3, h4, h5⟩ := h
  simp only at h1 h2 h3 h4 h5
  subst h1 h2 h3
  simp [Brotocol_Process_Brotocol, h4, h5]

theorem process_calls_release_iff (hbro : brotocol_slave_t) (bus_state : bus_state_t) :
    (Brotocol_Process_Brotocol hbro bus_state).2 = [Brotocol_Release_Bus]
      ↔ is_violation hbro bus_state ∨ is_mismatch hbro bus_state := by
  constructor
  · intro h
    obtain ⟨a, m, d, st, w, k, smp, cb⟩ := hbro
    cases st <;> cases bus_state <;> cases smp <;>
      simp only [Brotocol_Process_Brotocol] at h <;>
      (try split_ifs at h) <;>
      simp_all [is_violation, is_mismatch, Brotocol_Reset]
  · rintro (h | h)
    · rw [process_violation _ _ h]; rfl
    · rw [process_mismatch _ _ h]; rfl

/-- C6: `Brotocol_Reset` maps every slave state to the freshly started state for the
same own address (accumulators 0, `BROTOCOL_IDLE`, `is_waiting`, `is_acking`
and `current_bit` 0, last sampled level High) and releases the bus; applying
it twice equals applying it once; and the state after a timer expiry in
`BROTOCOL_END`, after an address mismatch, and after every transition that
the code treats as an error is this freshly started state.  The last
conjunct says that these are the only level events on which the code resets. -/
theorem reset_is_fresh_state (hbro : brotocol_slave_t) (bus bus_state : bus_state_t) :
    Brotocol_Reset hbro = ((Brotocol_Slave_Start hbro.my_address).1, [Brotocol_Release_Bus])
    ∧ (Brotocol_Slave_Start hbro.my_address).1
        = ⟨0, hbro.my_address, 0, BROTOCOL_IDLE, 0, 0, BUS_HIGH, 0⟩
    ∧ Brotocol_Reset (Brotocol_Reset hbro).1 = Brotocol_Reset hbro
    ∧ (hbro.brotocol_state = BROTOCOL_END →
        (Brotocol_Process_Wait_End hbro bus).1 = (Brotocol_Slave_Start hbro.my_address).1)
    ∧ (is_mismatch hbro bus_state →
        Brotocol_Process_Brotocol hbro bus_state
          = ((Brotocol_Slave_Start hbro.my_address).1, [Brotocol_Release_Bus]))
    ∧ (is_violation hbro bus_state →
        Brotocol_Process_Brotocol hbro bus_state
          = ((Brotocol_Slave_Start hbro.my_address).1, [Brotocol_Release_Bus]))
    ∧ ((Brotocol_Process_Brotocol hbro bus_state).2 = [Brotocol_Release_Bus]
        ↔ is_violation hbro bus_state ∨ is_mismatch hbro bus_state) := by
  refine ⟨Brotocol_Reset_eq hbro, rfl, rfl, ?_, ?_, ?_, process_calls_release_iff hbro bus_state⟩
  · intro h
    obtain ⟨a, m, d, st, w, k, smp, cb⟩ := hbro
    simp only at h
    subst h
    by_cases hk : k = 0 <;>
      simp [Brotocol_Process_Wait_End, Brotocol_Reset, Brotocol_Slave_Start, hbro_zero, hk]
  · intro h
    rw [process_mismatch _ _ h, Brotocol_Reset_eq]
  · intro h
    rw [process_violation _ _ h, Brotocol_Reset_eq]

theorem reset_is_fresh_state_witness :
    (Brotocol_Process_Wait_End ⟨11, 11, 1, BROTOCOL_END, 1, 1, BUS_HIGH, 1⟩ BUS_LOW).1
        = (Brotocol_Slave_Start 11).1
    ∧ Brotocol_Process_Brotocol ⟨12, 11, 0, BROTOCOL_ADDRESS, 0, 0, BUS_HIGH, 5⟩ BUS_LOW
        = ((Brotocol_Slave_Start 11).1, [Brotocol_Release_Bus])
    ∧ Brotocol_Process_Brotocol ⟨3, 11, 0, BROTOCOL_ADDRESS, 1, 0, BUS_HIGH, 2⟩ BUS_LOW
        = ((Brotocol_Slave_Start 11).1, [Brotocol_Release_Bus]) :=
  ⟨(reset_is_fresh_state ⟨11, 11, 1, BROTOCOL_END, 1, 1, BUS_HIGH, 1⟩ BUS_LOW BUS_LOW).2.2.2.1 rfl,
    (reset_is_fresh_state ⟨12, 11, 0, BROTOCOL_ADDRESS, 0, 0, BUS_HIGH, 5⟩ BUS_LOW BUS_LOW).2.2.2.2.1
      ⟨rfl, rfl, rfl, by decide, by decide⟩,
    (reset_is_fresh_state ⟨3, 11, 0, BROTOCOL_ADDRESS, 1, 0, BUS_HIGH, 2⟩ BUS_LOW BUS_LOW).2.2.2.2.2.1
      (Or.inl ⟨rfl, by decide⟩)⟩

/-! ## The payload handler -/

theorem process_calls_no_callback (hbro : brotocol_slave_t) (bus_state : bus_state_t)
    (data : Nat) (seen : brotocol_slave_t) :
    Brotocol_Rx_Callback data seen ∉ (Brotocol_Process_Brotocol hbro bus_state).2 := by
  obtain ⟨a, m, d, st, w, k, smp, cb⟩ := hbro
  cases st <;> cases bus_state <;>
    simp only [Brotocol_Process_Brotocol, Brotocol_Reset] <;>
    (try split_ifs) <;> simp

set_option maxRecDepth 1000000 in
/-- C7 (counterexample): in the frame for address `0x0b` and data `1` the handler is
called once and the state it can observe is still in `BROTOCOL_END` with the
address and data accumulators holding `0x0b` and `1`: the reset has not been
applied yet. -/
theorem handler_observes_end_state :
    rx_observed (run (Brotocol_Slave_Start 0x0b).1 (frame_events 0x0b 1)).2
      = [⟨0x0b, 0x0b, 1, BROTOCOL_END, 0, 0, BUS_LOW, 1⟩]
    ∧ ¬ (∀ seen ∈ rx_observed (run (Brotocol_Slave_Start 0x0b).1 (frame_events 0x0b 1)).2,
          seen.brotocol_state = BROTOCOL_IDLE ∧ seen.address = 0 ∧ seen.data = 0) := by
  have h : rx_observed (run (Brotocol_Slave_Start 0x0b).1 (frame_events 0x0b 1)).2
      = [⟨0x0b, 0x0b, 1, BROTOCOL_END, 0, 0, BUS_LOW, 1⟩] := by decide
  refine ⟨h, ?_⟩
  rw [h]
  simp

/-- C7 (amended): whenever a handler invocation calls `Brotocol_Rx_Callback data`, the
event is a timer expiry received in `BROTOCOL_END`; the state the callee can
observe is the state before the event with the bus sample recorded and
`is_waiting` and `is_acking` cleared, hence still in `BROTOCOL_END` with the
accumulators intact and `data` equal to the data accumulator; the only call
after it is the bus release of `Brotocol_Reset`, and the state once the timer
handler has returned is the freshly started one. -/
theorem handler_runs_before_reset (hbro : brotocol_slave_t) (e : event_t) (data : Nat)
    (seen : brotocol_slave_t) (h : Brotocol_Rx_Callback data seen ∈ (handle hbro e).2) :
    (∃ bus, e = timer bus
      ∧ seen = { hbro with bus_sampled_at_wait_end := bus, is_waiting := 0, is_acking := 0 })
    ∧ hbro.brotocol_state = BROTOCOL_END
    ∧ seen.brotocol_state = BROTOCOL_END
    ∧ seen.is_waiting = 0 ∧ seen.is_acking = 0
    ∧ seen.address = hbro.address
    ∧ seen.data = hbro.data ∧ data = hbro.data
    ∧ (handle hbro e).2 =
        (if hbro.is_acking ≠ 0 then [Brotocol_Release_Bus] else [])
          ++ [Brotocol_Rx_Callback data seen, Brotocol_Release_Bus]
    ∧ (handle hbro e).1 = (Brotocol_Slave_Start hbro.my_address).1 := by
  cases e with
  | level bus_state => exact absurd h (process_calls_no_callback hbro bus_state data seen)
  | timer bus =>
    obtain ⟨a, m, d, st, w, k, smp, cb⟩ := hbro
    by_cases hk : k = 0 <;> cases st <;>
      simp [handle, Brotocol_Process_Wait_End, Brotocol_Reset, Brotocol_Slave_Start,
        hbro_zero, hk] at h ⊢ <;>
      obtain ⟨rfl, rfl⟩ := h <;> simp

theorem handler_runs_before_reset_witness :
    Brotocol_Rx_Callback 1 ⟨0x0b, 0x0b, 1, BROTOCOL_END, 0, 0, BUS_LOW, 1⟩
        ∈ (handle ⟨0x0b, 0x0b, 1, BROTOCOL_END, 1, 1, BUS_HIGH, 1⟩ (timer BUS_LOW)).2
    ∧ (handle ⟨0x0b, 0x0b, 1, BROTOCOL_END, 1, 1, BUS_HIGH, 1⟩ (timer BUS_LOW)).1
        = (Brotocol_Slave_Start 0x0b).1 :=
  ⟨by decide,
    (handler_runs_before_reset ⟨0x0b, 0x0b, 1, BROTOCOL_END, 1, 1, BUS_HIGH, 1⟩ (timer BUS_LOW) 1
      ⟨0x0b, 0x0b, 1, BROTOCOL_END, 0, 0, BUS_LOW, 1⟩ (by decide)).2.2.2.2.2.2.2.2.2⟩

set_option maxRecDepth 1000000 in
/-- C8 (the code at the failing input): a slave with own address `1` receives the
frame for address `1` and data `1` with one extra High level event after the
data symbol.  The extra event is decoded as a second data bit, and the handler
is called with `3`, which does not fit in `DATA_N` bits. -/
theorem extra_high_event_delivers_wide_value :
    rx_values (run (Brotocol_Slave_Start 1).1
        (start_events ++ field_events ADDRESS_N 1 ++ ack_events
          ++ field_events DATA_N 1 ++ [level BUS_HIGH] ++ ack_events)).2 = [3]
    ∧ ¬ (3 < 2 ^ DATA_N) := by
  decide

theorem handle_my_address (hbro : brotocol_slave_t) (e : event_t) :
    (handle hbro e).1.my_address = hbro.my_address := by
  obtain ⟨a, m, d, st, w, k, smp, cb⟩ := hbro
  cases e with
  | level bus_state =>
    cases st <;> cases bus_state <;>
      simp only [handle, Brotocol_Process_Brotocol, Brotocol_Reset] <;>
      (try split_ifs) <;> rfl
  | timer bus =>
    simp only [handle, Brotocol_Process_Wait_End, Brotocol_Reset]
    split_ifs <;> rfl

theorem run_my_address (hbro : brotocol_slave_t) (es : List event_t) :
    (run hbro es).1.my_address = hbro.my_address := by
  induction es generalizing hbro with
  | nil => rfl
  | cons e es ih => simp only [run]; rw [ih, handle_my_address]

/-- C10: `my_address` is set by `Brotocol_Slave_Start` and is left unchanged by
`Brotocol_Reset`, by every level event, by every timer expiry, and hence by
every sequence of events, from every slave state. -/
theorem my_address_immutable (hbro : brotocol_slave_t) (bus_state bus : bus_state_t)
    (es : List event_t) (get_address : Nat) :
    (Brotocol_Slave_Start get_address).1.my_address = get_address
    ∧ (Brotocol_Reset hbro).1.my_address = hbro.my_address
    ∧ (Brotocol_Process_Brotocol hbro bus_state).1.my_address = hbro.my_address
    ∧ (Brotocol_Process_Wait_End hbro bus).1.my_address = hbro.my_address
    ∧ (run hbro es).1.my_address = hbro.my_address :=
  ⟨rfl, rfl, handle_my_address hbro (level bus_state), handle_my_address hbro (timer bus),
    run_my_address hbro es⟩

/-! ## Phase changes -/

theorem handle_phase_change (hbro : brotocol_slave_t) (e : event_t) :
    phase_change_allowed hbro.brotocol_state (handle hbro e).1.brotocol_state = true := by
  obtain ⟨a, m, d, st, w, k, smp, cb⟩ := hbro
  cases e with
  | level bus_state =>
    cases st <;> cases bus_state <;>
      simp only [handle, Brotocol_Process_Brotocol, Brotocol_Reset] <;>
      (try split_ifs) <;> rfl
  | timer bus =>
    cases st <;>
      simp only [handle, Brotocol_Process_Wait_End, Brotocol_Reset] <;>
      (try split_ifs) <;> first | rfl | simp_all

theorem handle_in_end (hbro : brotocol_slave_t) (e : event_t)
    (h : hbro.brotocol_state = BROTOCOL_END) :
    (handle hbro e).1 = (Brotocol_Slave_Start hbro.my_address).1
      ∧ (handle hbro e).2.getLast? = some Brotocol_Release_Bus := by
  obtain ⟨a, m, d, st, w, k, smp, cb⟩ := hbro
  simp only at h
  subst h
  cases e with
  | level bus_state =>
    simp [handle, Brotocol_Process_Brotocol, Brotocol_Reset, Brotocol_Slave_Start, hbro_zero]
  | timer bus =>
    by_cases hk : k = 0 <;>
      simp [handle, Brotocol_Process_Wait_End, Brotocol_Reset, Brotocol_Slave_Start,
        hbro_zero, hk]

/-- C11: for every slave state and every event (level event or timer expiry), the
phase before and the phase after the handler form one of Idle to Idle, Idle
to ReceivingAddress, ReceivingAddress to ReceivingAddress, ReceivingData or
Idle, ReceivingData to ReceivingData, Done or Idle, Done to Idle; and every
event received in Done ends, with the bus release of `Brotocol_Reset` as the
last call, in the freshly started state, whose phase is Idle. -/
theorem phase_changes_allowed (hbro : brotocol_slave_t) (e : event_t) :
    phase_change_allowed hbro.brotocol_state (handle hbro e).1.brotocol_state = true
    ∧ (hbro.brotocol_state = BROTOCOL_END →
        (handle hbro e).1 = (Brotocol_Slave_Start hbro.my_address).1
        ∧ (handle hbro e).1.brotocol_state = BROTOCOL_IDLE
        ∧ (handle hbro e).2.getLast? = some Brotocol_Release_Bus) := by
  refine ⟨handle_phase_change hbro e, fun h => ?_⟩
  obtain ⟨h1, h2⟩ := handle_in_end hbro e h
  exact ⟨h1, by rw [h1]; rfl, h2⟩

theorem phase_changes_allowed_witness :
    (handle ⟨0x0b, 0x0b, 1, BROTOCOL_END, 1, 1, BUS_HIGH, 1⟩ (level BUS_HIGH)).1
        = (Brotocol_Slave_Start 0x0b).1
    ∧ (handle ⟨0x0b, 0x0b, 1, BROTOCOL_END, 1, 1, BUS_HIGH, 1⟩ (level BUS_HIGH)).1.brotocol_state
        = BROTOCOL_IDLE
    ∧ (handle ⟨0x0b, 0x0b, 1, BROTOCOL_END, 1, 1, BUS_HIGH, 1⟩ (level BUS_HIGH)).2.getLast?
        = some Brotocol_Release_Bus :=
  (phase_changes_allowed ⟨0x0b, 0x0b, 1, BROTOCOL_END, 1, 1, BUS_HIGH, 1⟩ (level BUS_HIGH)).2 rfl

/-! ## Bounds on `current_bit` -/

set_option maxRecDepth 1000000 in
/-- C12 (the code at the failing input): after the Start symbol and the five
address symbols of `31`, one extra High level event leaves the slave in
`BROTOCOL_ADDRESS` with `current_bit = 6` (and bit 5 of the address accumulator
set); after a frame for address `1` up to its data symbol `1`, one extra High
level event leaves it in `BROTOCOL_DATA` with `current_bit = 2`.  Both exceed
the field width. -/
theorem extra_high_event_overruns_current_bit :
    (run (Brotocol_Slave_Start 1).1
        (start_events ++ field_events ADDRESS_N 31 ++ [level BUS_HIGH])).1
      = ⟨63, 1, 0, BROTOCOL_ADDRESS, 0, 0, BUS_LOW, 6⟩
    ∧ ¬ (6 ≤ ADDRESS_N)
    ∧ (run (Brotocol_Slave_Start 1).1
        (start_events ++ field_events ADDRESS_N 1 ++ ack_events
          ++ field_events DATA_N 1 ++ [level BUS_HIGH])).1
      = ⟨1, 1, 3, BROTOCOL_DATA, 0, 0, BUS_LOW, 2⟩
    ∧ ¬ (2 ≤ DATA_N) := by
  decide

/-! ## Acknowledging and driving the bus -/

theorem driving_low_append (b : Bool) (xs ys : List call_t) :
    driving_low b (xs ++ ys) = driving_low (driving_low b xs) ys := by
  induction xs generalizing b with
  | nil => rfl
  | cons x xs ih => cases x <;> simp [driving_low, ih]

/-- One handler invocation keeps: the slave drives the line exactly when `is_acking`
is set, and `is_acking` is set only with a timer outstanding and in
`BROTOCOL_DATA` or `BROTOCOL_END`. -/
theorem handle_acking (b : Bool) (hbro : brotocol_slave_t) (e : event_t)
    (h1 : b = true ↔ hbro.is_acking ≠ 0)
    (h2 : hbro.is_acking ≠ 0 → hbro.is_waiting ≠ 0
      ∧ (hbro.brotocol_state = BROTOCOL_DATA ∨ hbro.brotocol_state = BROTOCOL_END)) :
    (driving_low b (handle hbro e).2 = true ↔ (handle hbro e).1.is_acking ≠ 0)
    ∧ ((handle hbro e).1.is_acking ≠ 0 → (handle hbro e).1.is_waiting ≠ 0
      ∧ ((handle hbro e).1.brotocol_state = BROTOCOL_DATA
        ∨ (handle hbro e).1.brotocol_state = BROTOCOL_END)) := by
  obtain ⟨a, m, d, st, w, k, smp, cb⟩ := hbro
  simp only at h1 h2
  cases e with
  | level bus_state =>
    cases st <;> cases bus_state <;>
      simp only [handle, Brotocol_Process_Brotocol, Brotocol_Reset] <;>
      (try split_ifs) <;> simp_all [driving_low]
  | timer bus =>
    by_cases hk : k = 0 <;> cases st <;>
      simp_all [handle, Brotocol_Process_Wait_End, Brotocol_Reset, driving_low]

theorem run_acking (b : Bool) (hbro : brotocol_slave_t) (es : List event_t)
    (h1 : b = true ↔ hbro.is_acking ≠ 0)
    (h2 : hbro.is_acking ≠ 0 → hbro.is_waiting ≠ 0
      ∧ (hbro.brotocol_state = BROTOCOL_DATA ∨ hbro.brotocol_state = BROTOCOL_END)) :
    (driving_low b (run hbro es).2 = true ↔ (run hbro es).1.is_acking ≠ 0)
    ∧ ((run hbro es).1.is_acking ≠ 0 → (run hbro es).1.is_waiting ≠ 0
      ∧ ((run hbro es).1.brotocol_state = BROTOCOL_DATA
        ∨ (run hbro es).1.brotocol_state = BROTOCOL_END)) := by
  induction es generalizing b hbro with
  | nil => exact ⟨h1, h2⟩
  | cons e es ih =>
    obtain ⟨k1, k2⟩ := handle_acking b hbro e h1 h2
    simp only [run, driving_low_append]
    exact ih _ _ k1 k2

theorem run_acking_from_start (b : Bool) (own : Nat) (es : List event_t) :
    (driving_low b ((Brotocol_Slave_Start own).2 ++ (run (Brotocol_Slave_Start own).1 es).2)
        = true ↔ (run (Brotocol_Slave_Start own).1 es).1.is_acking ≠ 0)
    ∧ ((run (Brotocol_Slave_Start own).1 es).1.is_acking ≠ 0 →
        (run (Brotocol_Slave_Start own).1 es).1.is_waiting ≠ 0
        ∧ ((run (Brotocol_Slave_Start own).1 es).1.brotocol_state = BROTOCOL_DATA
          ∨ (run (Brotocol_Slave_Start own).1 es).1.brotocol_state = BROTOCOL_END)) := by
  rw [driving_low_append]
  apply run_acking
  · simp [Brotocol_Slave_Start, Brotocol_Reset, hbro_zero, driving_low]
  · simp [Brotocol_Slave_Start, Brotocol_Reset, hbro_zero]

set_option maxRecDepth 1000000 in
/-- C13 (counterexample): after the falling edge that opens the second Ack window of
the frame for address `0x0b` and data `1`, `is_acking` is set and the phase is
Done (`BROTOCOL_END`), which is neither ReceivingAddress nor ReceivingData. -/
theorem acking_in_end_state :
    (run (Brotocol_Slave_Start 0x0b).1
        (start_events ++ field_events ADDRESS_N 0x0b ++ ack_events
          ++ field_events DATA_N 1 ++ [level BUS_LOW])).1
      = ⟨0x0b, 0x0b, 1, BROTOCOL_END, 1, 1, BUS_LOW, 1⟩
    ∧ ¬ (BROTOCOL_END = BROTOCOL_ADDRESS ∨ BROTOCOL_END = BROTOCOL_DATA) := by
  decide

/-- C13 (amended): in every state reached from the freshly started slave by any
sequence of level events and timer expiries, `is_acking` is set only while the
phase is ReceivingData or Done (the phase advances in the handler that starts
the acknowledgment). -/
theorem acking_only_in_data_or_end (own : Nat) (es : List event_t)
    (h : (run (Brotocol_Slave_Start own).1 es).1.is_acking ≠ 0) :
    (run (Brotocol_Slave_Start own).1 es).1.brotocol_state = BROTOCOL_DATA
      ∨ (run (Brotocol_Slave_Start own).1 es).1.brotocol_state = BROTOCOL_END :=
  ((run_acking_from_start false own es).2 h).2

set_option maxRecDepth 1000000 in
theorem acking_only_in_data_or_end_witness :
    (run (Brotocol_Slave_Start 0x0b).1
        (start_events ++ field_events ADDRESS_N 0x0b ++ [level BUS_LOW])).1.is_acking ≠ 0
    ∧ ((run (Brotocol_Slave_Start 0x0b).1
          (start_events ++ field_events ADDRESS_N 0x0b ++ [level BUS_LOW])).1.brotocol_state
        = BROTOCOL_DATA
      ∨ (run (Brotocol_Slave_Start 0x0b).1
          (start_events ++ field_events ADDRESS_N 0x0b ++ [level BUS_LOW])).1.brotocol_state
        = BROTOCOL_END) :=
  ⟨by decide,
    acking_only_in_data_or_end 0x0b
      (start_events ++ field_events ADDRESS_N 0x0b ++ [level BUS_LOW]) (by decide)⟩

/-! ## Bit decoding -/

theorem bit_at_eq_testBit (v i : Nat) : bit_at v i = (v : Int).testBit i := by
  show ((v >>> i) &&& 1 != 0) = Nat.testBit v i
  rw [Nat.testBit, Nat.and_comm]

/-- One bit symbol received in `BROTOCOL_ADDRESS` with no timer outstanding and
`current_bit` below the address width. -/
theorem run_bit_events_in_address (hbro : brotocol_slave_t) (b : Bool)
    (hs : hbro.brotocol_state = BROTOCOL_ADDRESS) (hw : hbro.is_waiting = 0)
    (hk : hbro.current_bit < ADDRESS_N) (ha : hbro.address < 2 ^ 32) :
    (run hbro (bit_events b)).1.brotocol_state = BROTOCOL_ADDRESS
    ∧ (run hbro (bit_events b)).1.current_bit = hbro.current_bit + 1
    ∧ (run hbro (bit_events b)).1.is_waiting = 0
    ∧ (run hbro (bit_events b)).1.address
        = if b then hbro.address ||| (1 <<< hbro.current_bit) else hbro.address := by
  obtain ⟨a, m, d, st, w, k, smp, cb⟩ := hbro
  simp only at hs hw hk ha
  subst hs hw
  have hcb : cb < 5 := by simpa [ADDRESS_N] using hk
  have hwrap : (cb + 1) % 2 ^ 8 = cb + 1 := Nat.mod_eq_of_lt (by omega)
  have hone : 1 <<< cb < 2 ^ 32 := by
    rw [Nat.one_shiftLeft]
    exact Nat.pow_lt_pow_right (by decide) (by omega)
  have hor : (a ||| 1 <<< cb) % 2 ^ 32 = a ||| 1 <<< cb :=
    Nat.mod_eq_of_lt (Nat.or_lt_two_pow ha hone)
  cases b <;> by_cases hk0 : k = 0 <;>
    simp [run, handle, bit_events, Brotocol_Process_Brotocol, Brotocol_Process_Wait_End, hk,
      hk0, hwrap, hor] <;>
    first | exact hwrap | exact ⟨hwrap, hor⟩ | omega

/-- C14: for every own address and every `a < 2 ^ ADDRESS_N`, after the Start events
and the symbols of bits `0 .. ADDRESS_N - 1` of `a` (long-low, timer expiry
reading Low before the High event, for a one; short-low, High event before
the timer expiry, for a zero) the slave is in `BROTOCOL_ADDRESS` with the
address accumulator equal to `a`, `current_bit = ADDRESS_N` and no timer
outstanding.  The symbols are long-low exactly where the master emits the
Low 8, High 2 shape.  In `BROTOCOL_ADDRESS` with no timer outstanding and
`current_bit` below the width, a long-low symbol sets bit `current_bit` of the
accumulator and a short-low symbol leaves it unchanged, each incrementing
`current_bit` by one. -/
theorem address_decoding (own a : Nat) (ha : a < 2 ^ ADDRESS_N) :
    ((run (Brotocol_Slave_Start own).1
          (start_events ++ field_events ADDRESS_N a)).1.brotocol_state = BROTOCOL_ADDRESS
      ∧ (run (Brotocol_Slave_Start own).1
          (start_events ++ field_events ADDRESS_N a)).1.address = a
      ∧ (run (Brotocol_Slave_Start own).1
          (start_events ++ field_events ADDRESS_N a)).1.current_bit = ADDRESS_N
      ∧ (run (Brotocol_Slave_Start own).1
          (start_events ++ field_events ADDRESS_N a)).1.is_waiting = 0)
    ∧ send_symbols ADDRESS_N (a : Int)
        = (List.range ADDRESS_N).flatMap (fun i => if bit_at a i then shape 8 2 else shape 2 8)
    ∧ (∀ (hbro : brotocol_slave_t) (b : Bool),
        hbro.brotocol_state = BROTOCOL_ADDRESS → hbro.is_waiting = 0 →
        hbro.current_bit < ADDRESS_N → hbro.address < 2 ^ 32 →
        (run hbro (bit_events b)).1.brotocol_state = BROTOCOL_ADDRESS
        ∧ (run hbro (bit_events b)).1.current_bit = hbro.current_bit + 1
        ∧ (run hbro (bit_events b)).1.is_waiting = 0
        ∧ (run hbro (bit_events b)).1.address
            = if b then hbro.address ||| (1 <<< hbro.current_bit) else hbro.address) := by
  refine ⟨?_, ?_, fun hbro b => run_bit_events_in_address hbro b⟩
  · obtain ⟨s, hs⟩ := run_field_events_address own a ha ADDRESS_N (Nat.le_refl _)
    rw [Nat.mod_eq_of_lt ha] at hs
    rw [run_append, run_start_events]
    simp only []
    rw [hs]
    exact ⟨rfl, rfl, rfl, rfl⟩
  · rw [send_symbols_eq_field_shape]
    unfold field_shape
    congr 1
    funext i
    rw [bit_at_eq_testBit]
    rfl

set_option maxRecDepth 1000000 in
theorem address_decoding_witness :
    (0x0b < 2 ^ ADDRESS_N)
    ∧ (run (Brotocol_Slave_Start 1).1
          (start_events ++ field_events ADDRESS_N 0x0b)).1.address = 0x0b
    ∧ (run ⟨3, 1, 0, BROTOCOL_ADDRESS, 0, 0, BUS_HIGH, 3⟩ (bit_events true)).1.address
        = if true then 3 ||| (1 <<< 3) else 3 :=
  have h := address_decoding 1 0x0b (by decide)
  ⟨by decide, h.1.2.1,
    (h.2.2 ⟨3, 1, 0, BROTOCOL_ADDRESS, 0, 0, BUS_HIGH, 3⟩ true rfl rfl (by decide)
      (by decide)).2.2.2⟩

/-! ## Protocol violations -/

theorem handle_callback_only_timer_in_end (hbro : brotocol_slave_t) (e : event_t) (data : Nat)
    (seen : brotocol_slave_t) (h : Brotocol_Rx_Callback data seen ∈ (handle hbro e).2) :
    (∃ bus, e = timer bus) ∧ hbro.brotocol_state = BROTOCOL_END := by
  cases e with
  | level bus_state => exact absurd h (process_calls_no_callback hbro bus_state data seen)
  | timer bus =>
    refine ⟨⟨bus, rfl⟩, ?_⟩
    obtain ⟨a, m, d, st, w, k, smp, cb⟩ := hbro
    by_cases hk : k = 0 <;> cases st <;>
      simp [handle, Brotocol_Process_Wait_End, Brotocol_Reset, hk] at h ⊢

/-- C15: for every slave state, a Low level event outside Done while a timer is
outstanding, a High level event in Idle while a timer is outstanding, a High
level event outside Done with no timer outstanding and a last sampled level
High, and any level event in Done each yield exactly the freshly started
state (with the bus release of `Brotocol_Reset` as only call); no level event
calls `Brotocol_Rx_Callback`, which is called only by a timer expiry in Done. -/
theorem violations_reset (hbro : brotocol_slave_t) (bus_state : bus_state_t) :
    (hbro.brotocol_state ≠ BROTOCOL_END → bus_state = BUS_LOW → hbro.is_waiting ≠ 0 →
      Brotocol_Process_Brotocol hbro bus_state
        = ((Brotocol_Slave_Start hbro.my_address).1, [Brotocol_Release_Bus]))
    ∧ (hbro.brotocol_state = BROTOCOL_IDLE → bus_state = BUS_HIGH → hbro.is_waiting ≠ 0 →
      Brotocol_Process_Brotocol hbro bus_state
        = ((Brotocol_Slave_Start hbro.my_address).1, [Brotocol_Release_Bus]))
    ∧ (hbro.brotocol_state ≠ BROTOCOL_END → bus_state = BUS_HIGH → hbro.is_waiting = 0 →
      hbro.bus_sampled_at_wait_end = BUS_HIGH →
      Brotocol_Process_Brotocol hbro bus_state
        = ((Brotocol_Slave_Start hbro.my_address).1, [Brotocol_Release_Bus]))
    ∧ (hbro.brotocol_state = BROTOCOL_END →
      Brotocol_Process_Brotocol hbro bus_state
        = ((Brotocol_Slave_Start hbro.my_address).1, [Brotocol_Release_Bus]))
    ∧ (∀ data seen, Brotocol_Rx_Callback data seen ∉ (Brotocol_Process_Brotocol hbro bus_state).2)
    ∧ (∀ e data seen, Brotocol_Rx_Callback data seen ∈ (handle hbro e).2 →
        (∃ bus, e = timer bus) ∧ hbro.brotocol_state = BROTOCOL_END) := by
  refine ⟨?_, ?_, ?_, ?_, fun data seen => process_calls_no_callback hbro bus_state data seen,
    fun e data seen h => handle_callback_only_timer_in_end hbro e data seen h⟩
  · intro hs hb hw
    rw [process_violation, Brotocol_Reset_eq]
    obtain ⟨a, m, d, st, w, k, smp, cb⟩ := hbro
    cases st <;> simp_all [is_violation]
  · intro hs hb hw
    rw [process_violation, Brotocol_Reset_eq]
    obtain ⟨a, m, d, st, w, k, smp, cb⟩ := hbro
    cases st <;> simp_all [is_violation]
  · intro hs hb hw hsmp
    rw [process_violation, Brotocol_Reset_eq]
    obtain ⟨a, m, d, st, w, k, smp, cb⟩ := hbro
    cases st <;> simp_all [is_violation]
  · intro hs
    rw [process_violation, Brotocol_Reset_eq]
    obtain ⟨a, m, d, st, w, k, smp, cb⟩ := hbro
    cases st <;> simp_all [is_violation]

theorem violations_reset_witness :
    Brotocol_Process_Brotocol ⟨3, 0x0b, 0, BROTOCOL_ADDRESS, 1, 0, BUS_HIGH, 2⟩ BUS_LOW
        = ((Brotocol_Slave_Start 0x0b).1, [Brotocol_Release_Bus])
    ∧ Brotocol_Process_Brotocol ⟨0, 0x0b, 0, BROTOCOL_IDLE, 1, 0, BUS_HIGH, 0⟩ BUS_HIGH
        = ((Brotocol_Slave_Start 0x0b).1, [Brotocol_Release_Bus])
    ∧ Brotocol_Process_Brotocol ⟨3, 0x0b, 0, BROTOCOL_ADDRESS, 0, 0, BUS_HIGH, 2⟩ BUS_HIGH
        = ((Brotocol_Slave_Start 0x0b).1, [Brotocol_Release_Bus])
    ∧ Brotocol_Process_Brotocol ⟨0x0b, 0x0b, 1, BROTOCOL_END, 1, 1, BUS_LOW, 1⟩ BUS_HIGH
        = ((Brotocol_Slave_Start 0x0b).1, [Brotocol_Release_Bus]) :=
  ⟨(violations_reset ⟨3, 0x0b, 0, BROTOCOL_ADDRESS, 1, 0, BUS_HIGH, 2⟩ BUS_LOW).1
      (by decide) rfl (by decide),
    (violations_reset ⟨0, 0x0b, 0, BROTOCOL_IDLE, 1, 0, BUS_HIGH, 0⟩ BUS_HIGH).2.1
      rfl rfl (by decide),
    (violations_reset ⟨3, 0x0b, 0, BROTOCOL_ADDRESS, 0, 0, BUS_HIGH, 2⟩ BUS_HIGH).2.2.1
      (by decide) rfl rfl rfl,
    (violations_reset ⟨0x0b, 0x0b, 1, BROTOCOL_END, 1, 1, BUS_LOW, 1⟩ BUS_HIGH).2.2.2.1 rfl⟩

/-! ## Timer expiry -/

/-- C16: for every slave state whose phase is not Done, a timer expiry records the
level read on line 40 (before the release on line 43) as last sampled level,
clears `is_waiting` and `is_acking`, and releases the bus exactly when
`is_acking` was set; phase, accumulators, `current_bit` and `my_address` are
unchanged and the handler is not called.  In Done the same expiry then calls
the handler with the data accumulator and resets. -/
theorem timer_expiry_effect (hbro : brotocol_slave_t) (bus : bus_state_t) :
    (hbro.brotocol_state ≠ BROTOCOL_END →
      Brotocol_Process_Wait_End hbro bus
        = ({ hbro with bus_sampled_at_wait_end := bus, is_waiting := 0, is_acking := 0 },
            if hbro.is_acking ≠ 0 then [Brotocol_Release_Bus] else [])
      ∧ rx_values (Brotocol_Process_Wait_End hbro bus).2 = [])
    ∧ (hbro.brotocol_state = BROTOCOL_END →
      Brotocol_Process_Wait_End hbro bus
        = ((Brotocol_Slave_Start hbro.my_address).1,
            (if hbro.is_acking ≠ 0 then [Brotocol_Release_Bus] else [])
              ++ [Brotocol_Rx_Callback hbro.data
                    { hbro with bus_sampled_at_wait_end := bus, is_waiting := 0,
                                is_acking := 0 },
                  Brotocol_Release_Bus])
      ∧ rx_values (Brotocol_Process_Wait_End hbro bus).2 = [hbro.data]) := by
  obtain ⟨a, m, d, st, w, k, smp, cb⟩ := hbro
  constructor
  · intro hs
    by_cases hk : k = 0 <;> cases st <;>
      simp_all [Brotocol_Process_Wait_End, rx_values]
  · intro hs
    simp only at hs
    subst hs
    by_cases hk : k = 0 <;>
      simp [Brotocol_Process_Wait_End, Brotocol_Reset, Brotocol_Slave_Start, hbro_zero,
        rx_values, hk]

theorem timer_expiry_effect_witness :
    Brotocol_Process_Wait_End ⟨0x0b, 0x0b, 0, BROTOCOL_DATA, 1, 1, BUS_HIGH, 0⟩ BUS_LOW
        = (⟨0x0b, 0x0b, 0, BROTOCOL_DATA, 0, 0, BUS_LOW, 0⟩, [Brotocol_Release_Bus])
    ∧ rx_values (Brotocol_Process_Wait_End
        ⟨0x0b, 0x0b, 1, BROTOCOL_END, 1, 1, BUS_HIGH, 1⟩ BUS_LOW).2 = [1] :=
  ⟨((timer_expiry_effect ⟨0x0b, 0x0b, 0, BROTOCOL_DATA, 1, 1, BUS_HIGH, 0⟩ BUS_LOW).1
      (by decide)).1,
    ((timer_expiry_effect ⟨0x0b, 0x0b, 1, BROTOCOL_END, 1, 1, BUS_HIGH, 1⟩ BUS_LOW).2 rfl).2⟩

/-! ## Arming the timer -/

theorem armed_wait_end (hbro : brotocol_slave_t) (bus : bus_state_t) :
    armed (Brotocol_Process_Wait_End hbro bus).2 = [] := by
  obtain ⟨a, m, d, st, w, k, smp, cb⟩ := hbro
  by_cases hk : k = 0 <;> cases st <;>
    simp [Brotocol_Process_Wait_End, Brotocol_Reset, armed, hk]

theorem armed_process (hbro : brotocol_slave_t) (bus_state : bus_state_t) (ms : Nat)
    (h : ms ∈ armed (Brotocol_Process_Brotocol hbro bus_state).2) :
    bus_state = BUS_LOW ∧ hbro.is_waiting = 0
    ∧ (Brotocol_Process_Brotocol hbro bus_state).1.is_waiting = 1
    ∧ armed (Brotocol_Process_Brotocol hbro bus_state).2 = [ms]
    ∧ ((hbro.brotocol_state = BROTOCOL_IDLE ∧ ms = 15 * TIME_UNIT_MS)
      ∨ (hbro.brotocol_state = BROTOCOL_ADDRESS ∧ hbro.current_bit < ADDRESS_N
          ∧ ms = 5 * TIME_UNIT_MS)
      ∨ (hbro.brotocol_state = BROTOCOL_DATA ∧ hbro.current_bit < DATA_N
          ∧ ms = 5 * TIME_UNIT_MS)
      ∨ (hbro.brotocol_state = BROTOCOL_ADDRESS ∧ ¬ hbro.current_bit < ADDRESS_N
          ∧ hbro.address = hbro.my_address ∧ ms = 8 * TIME_UNIT_MS
          ∧ Brotocol_Set_Bus_Low ∈ (Brotocol_Process_Brotocol hbro bus_state).2)
      ∨ (hbro.brotocol_state = BROTOCOL_DATA ∧ ¬ hbro.current_bit < DATA_N
          ∧ ms = 8 * TIME_UNIT_MS
          ∧ Brotocol_Set_Bus_Low ∈ (Brotocol_Process_Brotocol hbro bus_state).2)) := by
  obtain ⟨a, m, d, st, w, k, smp, cb⟩ := hbro
  cases st <;> cases bus_state <;>
    simp only [Brotocol_Process_Brotocol, Brotocol_Reset] at h ⊢ <;>
    (try split_ifs at h ⊢) <;> simp_all [armed]

/-- C17: a handler arms at most one timer; it does so only for a Low level event
received with `is_waiting` clear, and then leaves `is_waiting` set; the
duration is 15 time units in Idle, 5 at the start of a bit in ReceivingAddress
or ReceivingData (`current_bit` below the field width) and 8 when
acknowledging a completed field (the only case where the bus is driven).
Each of these cases does arm the stated timer, and a Low level event received
with `is_waiting` set arms none and resets the state. -/
theorem timer_arming (hbro : brotocol_slave_t) (e : event_t) :
    (armed (handle hbro e).2).length ≤ 1
    ∧ (∀ ms ∈ armed (handle hbro e).2,
        e = level BUS_LOW ∧ hbro.is_waiting = 0 ∧ (handle hbro e).1.is_waiting = 1
        ∧ ((hbro.brotocol_state = BROTOCOL_IDLE ∧ ms = 15 * TIME_UNIT_MS)
          ∨ (hbro.brotocol_state = BROTOCOL_ADDRESS ∧ hbro.current_bit < ADDRESS_N
              ∧ ms = 5 * TIME_UNIT_MS)
          ∨ (hbro.brotocol_state = BROTOCOL_DATA ∧ hbro.current_bit < DATA_N
              ∧ ms = 5 * TIME_UNIT_MS)
          ∨ (hbro.brotocol_state = BROTOCOL_ADDRESS ∧ ¬ hbro.current_bit < ADDRESS_N
              ∧ hbro.address = hbro.my_address ∧ ms = 8 * TIME_UNIT_MS
              ∧ Brotocol_Set_Bus_Low ∈ (handle hbro e).2)
          ∨ (hbro.brotocol_state = BROTOCOL_DATA ∧ ¬ hbro.current_bit < DATA_N
              ∧ ms = 8 * TIME_UNIT_MS
              ∧ Brotocol_Set_Bus_Low ∈ (handle hbro e).2)))
    ∧ (hbro.is_waiting = 0 → hbro.brotocol_state = BROTOCOL_IDLE →
        armed (handle hbro (level BUS_LOW)).2 = [15 * TIME_UNIT_MS])
    ∧ (hbro.is_waiting = 0 → hbro.brotocol_state = BROTOCOL_ADDRESS →
        hbro.current_bit < ADDRESS_N →
        armed (handle hbro (level BUS_LOW)).2 = [5 * TIME_UNIT_MS])
    ∧ (hbro.is_waiting = 0 → hbro.brotocol_state = BROTOCOL_DATA →
        hbro.current_bit < DATA_N →
        armed (handle hbro (level BUS_LOW)).2 = [5 * TIME_UNIT_MS])
    ∧ (hbro.is_waiting = 0 → hbro.brotocol_state = BROTOCOL_ADDRESS →
        ¬ hbro.current_bit < ADDRESS_N → hbro.address = hbro.my_address →
        armed (handle hbro (level BUS_LOW)).2 = [8 * TIME_UNIT_MS])
    ∧ (hbro.is_waiting = 0 → hbro.brotocol_state = BROTOCOL_DATA →
        ¬ hbro.current_bit < DATA_N →
        armed (handle hbro (level BUS_LOW)).2 = [8 * TIME_UNIT_MS])
    ∧ (hbro.is_waiting ≠ 0 →
        handle hbro (level BUS_LOW)
          = ((Brotocol_Slave_Start hbro.my_address).1, [Brotocol_Release_Bus])
        ∧ armed (handle hbro (level BUS_LOW)).2 = []) := by
  refine ⟨?_, ?_, ?_, ?_, ?_, ?_, ?_, ?_⟩
  · cases e with
    | level bus_state =>
      by_cases hne : armed (Brotocol_Process_Brotocol hbro bus_state).2 = []
      · simp [handle, hne]
      · obtain ⟨ms, hms⟩ := List.exists_mem_of_ne_nil _ hne
        have h := (armed_process hbro bus_state ms hms).2.2.2.1
        simp [handle, h]
    | timer bus => simp [handle, armed_wait_end]
  · intro ms hms
    cases e with
    | level bus_state =>
      obtain ⟨h1, h2, h3, _, h5⟩ := armed_process hbro bus_state ms hms
      subst h1
      exact ⟨rfl, h2, h3, h5⟩
    | timer bus =>
      simp [handle, armed_wait_end] at hms
  · intro hw hs
    obtain ⟨a, m, d, st, w, k, smp, cb⟩ := hbro
    simp only at hw hs
    subst hw hs
    simp [handle, Brotocol_Process_Brotocol, armed]
  · intro hw hs hk
    obtain ⟨a, m, d, st, w, k, smp, cb⟩ := hbro
    simp only at hw hs hk
    subst hw hs
    simp [handle, Brotocol_Process_Brotocol, armed, hk]
  · intro hw hs hk
    obtain ⟨a, m, d, st, w, k, smp, cb⟩ := hbro
    simp only at hw hs hk
    subst hw hs
    simp [handle, Brotocol_Process_Brotocol, armed, hk]
  · intro hw hs hk ha
    obtain ⟨a, m, d, st, w, k, smp, cb⟩ := hbro
    simp only at hw hs hk ha
    subst hw hs ha
    simp [handle, Brotocol_Process_Brotocol, armed, hk]
  · intro hw hs hk
    obtain ⟨a, m, d, st, w, k, smp, cb⟩ := hbro
    simp only at hw hs hk
    subst hw hs
    simp [handle, Brotocol_Process_Brotocol, armed, hk]
  · intro hw
    obtain ⟨a, m, d, st, w, k, smp, cb⟩ := hbro
    simp only at hw
    cases st <;>
      simp [handle, Brotocol_Process_Brotocol, Brotocol_Reset, Brotocol_Slave_Start,
        hbro_zero, armed, hw]

theorem timer_arming_witness :
    armed (handle ⟨0, 0x0b, 0, BROTOCOL_IDLE, 0, 0, BUS_HIGH, 0⟩ (level BUS_LOW)).2
        = [15 * TIME_UNIT_MS]
    ∧ armed (handle ⟨3, 0x0b, 0, BROTOCOL_ADDRESS, 0, 0, BUS_LOW, 2⟩ (level BUS_LOW)).2
        = [5 * TIME_UNIT_MS]
    ∧ armed (handle ⟨0x0b, 0x0b, 0, BROTOCOL_ADDRESS, 0, 0, BUS_HIGH, 5⟩ (level BUS_LOW)).2
        = [8 * TIME_UNIT_MS]
    ∧ armed (handle ⟨3, 0x0b, 0, BROTOCOL_ADDRESS, 1, 0, BUS_LOW, 2⟩ (level BUS_LOW)).2 = [] :=
  ⟨(timer_arming ⟨0, 0x0b, 0, BROTOCOL_IDLE, 0, 0, BUS_HIGH, 0⟩ (level BUS_LOW)).2.2.1 rfl rfl,
    (timer_arming ⟨3, 0x0b, 0, BROTOCOL_ADDRESS, 0, 0, BUS_LOW, 2⟩ (level BUS_LOW)).2.2.2.1
      rfl rfl (by decide),
    (timer_arming ⟨0x0b, 0x0b, 0, BROTOCOL_ADDRESS, 0, 0, BUS_HIGH, 5⟩
      (level BUS_LOW)).2.2.2.2.2.1 rfl rfl (by decide) rfl,
    ((timer_arming ⟨3, 0x0b, 0, BROTOCOL_ADDRESS, 1, 0, BUS_LOW, 2⟩
      (level BUS_LOW)).2.2.2.2.2.2.2 (by decide)).2⟩

/-! ## Driving the bus -/

theorem wait_end_releases (hbro : brotocol_slave_t) (bus : bus_state_t)
    (h : hbro.is_acking ≠ 0) :
    driving_low true (Brotocol_Process_Wait_End hbro bus).2 = false := by
  obtain ⟨a, m, d, st, w, k, smp, cb⟩ := hbro
  simp only at h
  cases st <;> simp [Brotocol_Process_Wait_End, Brotocol_Reset, driving_low, h]

/-- C18: with the slave's output on the line modelled as a flag that
`Brotocol_Set_Bus_Low` sets and `Brotocol_Release_Bus` clears, after
`Brotocol_Slave_Start` and any sequence of handler invocations the slave
drives the line Low if and only if `is_acking` is set, and `is_acking` set
implies `is_waiting` set: a timer is outstanding, and its expiry releases the
line. -/
theorem drives_low_iff_acking (b : Bool) (own : Nat) (es : List event_t) :
    (driving_low b ((Brotocol_Slave_Start own).2 ++ (run (Brotocol_Slave_Start own).1 es).2)
        = true ↔ (run (Brotocol_Slave_Start own).1 es).1.is_acking ≠ 0)
    ∧ ((run (Brotocol_Slave_Start own).1 es).1.is_acking ≠ 0 →
        (run (Brotocol_Slave_Start own).1 es).1.is_waiting ≠ 0
        ∧ ∀ bus, driving_low true
            (Brotocol_Process_Wait_End (run (Brotocol_Slave_Start own).1 es).1 bus).2 = false) :=
  ⟨(run_acking_from_start b own es).1,
    fun h => ⟨((run_acking_from_start b own es).2 h).1, fun bus => wait_end_releases _ bus h⟩⟩

set_option maxRecDepth 1000000 in
theorem drives_low_iff_acking_witness :
    (run (Brotocol_Slave_Start 0x0b).1
        (start_events ++ field_events ADDRESS_N 0x0b ++ [level BUS_LOW])).1.is_acking ≠ 0
    ∧ (run (Brotocol_Slave_Start 0x0b).1
        (start_events ++ field_events ADDRESS_N 0x0b ++ [level BUS_LOW])).1.is_waiting ≠ 0 :=
  ⟨by decide,
    ((drives_low_iff_acking false 0x0b
      (start_events ++ field_events ADDRESS_N 0x0b ++ [level BUS_LOW])).2 (by decide)).1⟩

/-! ## Field widths under alternating level events -/

theorem or_shift_lt (a cb : Nat) (h : a < 2 ^ cb) :
    (a ||| 1 <<< cb) % 2 ^ 32 < 2 ^ (cb + 1) := by
  have h1 : a < 2 ^ (cb + 1) :=
    Nat.lt_of_lt_of_le h (Nat.pow_le_pow_right (by decide) (Nat.le_succ cb))
  have h2 : 1 <<< cb < 2 ^ (cb + 1) := by
    rw [Nat.one_shiftLeft]
    exact Nat.pow_lt_pow_right (by decide) (Nat.lt_succ_self cb)
  exact Nat.lt_of_le_of_lt (Nat.mod_le _ _) (Nat.or_lt_two_pow h1 h2)

theorem rx_values_append (xs ys : List call_t) :
    rx_values (xs ++ ys) = rx_values xs ++ rx_values ys := by
  induction xs with
  | nil => rfl
  | cons x xs ih => cases x <;> simp [rx_values, ih]

theorem no_repeated_high_append (high : Bool) (es fs : List event_t) :
    no_repeated_high high (es ++ fs)
      = (no_repeated_high high es && no_repeated_high (last_level_high high es) fs) := by
  induction es generalizing high with
  | nil => simp [no_repeated_high, last_level_high]
  | cons e es ih =>
    cases e with
    | level bus_state =>
      cases bus_state <;> simp [no_repeated_high, last_level_high, ih, Bool.and_assoc]
    | timer bus => simp [no_repeated_high, last_level_high, ih]

theorem handle_width_invariant (high : Bool) (hbro : brotocol_slave_t) (e : event_t)
    (hinv : width_invariant high hbro) (halt : no_repeated_high high [e] = true) :
    width_invariant (last_level_high high [e]) (handle hbro e).1 := by
  obtain ⟨a, m, d, st, w, k, smp, cb⟩ := hbro
  have hhigh : e = level BUS_HIGH → high = false := by
    intro he
    subst he
    simpa [no_repeated_high] using halt
  cases st with
  | BROTOCOL_IDLE =>
    simp only [width_invariant] at hinv
    obtain ⟨ha, hd, hc⟩ := hinv
    subst ha hd hc
    cases e with
    | timer bus =>
      by_cases hk : k = 0 <;>
        simp [handle, Brotocol_Process_Wait_End, width_invariant, hk]
    | level bus_state =>
      cases bus_state <;>
        simp only [handle, Brotocol_Process_Brotocol, Brotocol_Reset, reduceCtorEq,
          reduceIte] <;>
        (try split_ifs) <;> simp [width_invariant, last_level_high]
  | BROTOCOL_ADDRESS =>
    simp only [width_invariant, ADDRESS_N] at hinv
    obtain ⟨hd, ha, hc, hlt⟩ := hinv
    subst hd
    have hor := or_shift_lt a cb ha
    have ha2 : a < 2 ^ (cb + 1) :=
      Nat.lt_of_lt_of_le ha (Nat.pow_le_pow_right (by decide) (Nat.le_succ cb))
    cases e with
    | timer bus =>
      by_cases hk : k = 0 <;>
        simp [handle, Brotocol_Process_Wait_End, width_invariant, hk, last_level_high,
          ADDRESS_N] <;>
        exact ⟨ha, hc, hlt⟩
    | level bus_state =>
      cases bus_state with
      | BUS_LOW =>
        simp only [handle, Brotocol_Process_Brotocol, Brotocol_Reset, reduceCtorEq,
          reduceIte]
        split_ifs <;>
          simp only [width_invariant, last_level_high, ADDRESS_N, DATA_N] at * <;>
          and_intros <;>
          first | assumption | omega | decide
      | BUS_HIGH =>
        have hcb : cb < 5 := hlt (hhigh rfl)
        have hwrap : (cb + 1) % 2 ^ 8 = cb + 1 := Nat.mod_eq_of_lt (by omega)
        simp only [handle, Brotocol_Process_Brotocol, Brotocol_Reset, reduceCtorEq,
          reduceIte]
        split_ifs <;>
          simp only [width_invariant, last_level_high, ADDRESS_N, DATA_N, hwrap] at * <;>
          and_intros <;>
          first | assumption | omega | decide | (intro h; cases h)
  | BROTOCOL_DATA =>
    simp only [width_invariant, DATA_N] at hinv
    obtain ⟨hd, hc, hlt⟩ := hinv
    have hd2 : d < 2 ^ 1 :=
      Nat.lt_of_lt_of_le hd (Nat.pow_le_pow_right (by decide) hc)
    have hor := or_shift_lt d cb hd
    have hd3 : d < 2 ^ (cb + 1) :=
      Nat.lt_of_lt_of_le hd (Nat.pow_le_pow_right (by decide) (Nat.le_succ cb))
    cases e with
    | timer bus =>
      by_cases hk : k = 0 <;>
        simp only [handle, Brotocol_Process_Wait_End, width_invariant, hk, last_level_high,
          DATA_N, reduceCtorEq, reduceIte, ne_eq, not_true_eq_false, not_false_eq_true] <;>
        exact ⟨hd, hc, hlt⟩
    | level bus_state =>
      cases bus_state with
      | BUS_LOW =>
        simp only [handle, Brotocol_Process_Brotocol, Brotocol_Reset, reduceCtorEq,
          reduceIte]
        split_ifs <;>
          simp only [width_invariant, last_level_high, ADDRESS_N, DATA_N] at * <;>
          and_intros <;>
          first | assumption | omega | decide
      | BUS_HIGH =>
        have hcb : cb < 1 := hlt (hhigh rfl)
        have hwrap : (cb + 1) % 2 ^ 8 = cb + 1 := Nat.mod_eq_of_lt (by omega)
        simp only [handle, Brotocol_Process_Brotocol, Brotocol_Reset, reduceCtorEq,
          reduceIte]
        split_ifs <;>
          simp only [width_invariant, last_level_high, ADDRESS_N, DATA_N, hwrap] at * <;>
          and_intros <;>
          first | assumption | omega | decide | (intro h; cases h)
  | BROTOCOL_END =>
    cases e with
    | timer bus =>
      by_cases hk : k = 0 <;>
        simp [handle, Brotocol_Process_Wait_End, Brotocol_Reset, width_invariant, hk]
    | level bus_state =>
      simp [handle, Brotocol_Process_Brotocol, Brotocol_Reset, width_invariant]

theorem handle_rx_values_lt (high : Bool) (hbro : brotocol_slave_t) (e : event_t)
    (hinv : width_invariant high hbro) :
    ∀ v ∈ rx_values (handle hbro e).2, v < 2 ^ DATA_N := by
  obtain ⟨a, m, d, st, w, k, smp, cb⟩ := hbro
  cases e with
  | level bus_state =>
    cases st <;> cases bus_state <;>
      simp only [handle, Brotocol_Process_Brotocol, Brotocol_Reset, reduceCtorEq,
        reduceIte] <;>
      (try split_ifs) <;> simp [rx_values]
  | timer bus =>
    cases st <;> by_cases hk : k = 0 <;>
      simp [handle, Brotocol_Process_Wait_End, Brotocol_Reset, rx_values, hk]
    all_goals exact hinv.1

theorem run_width_invariant (high : Bool) (hbro : brotocol_slave_t) (es : List event_t)
    (hinv : width_invariant high hbro) (halt : no_repeated_high high es = true) :
    width_invariant (last_level_high high es) (run hbro es).1
      ∧ ∀ v ∈ rx_values (run hbro es).2, v < 2 ^ DATA_N := by
  induction es generalizing high hbro with
  | nil => exact ⟨hinv, by simp [run, rx_values]⟩
  | cons e es ih =>
    have hsplit := no_repeated_high_append high [e] es
    rw [List.singleton_append, halt] at hsplit
    obtain ⟨h1, h2⟩ := Bool.and_eq_true_iff.mp hsplit.symm
    have hflag : last_level_high high (e :: es)
        = last_level_high (last_level_high high [e]) es := by
      cases e with
      | level bus_state => cases bus_state <;> rfl
      | timer bus => rfl
    obtain ⟨k1, k2⟩ := ih (last_level_high high [e]) (handle hbro e).1
      (handle_width_invariant high hbro e hinv h1) h2
    refine ⟨by rw [hflag]; exact k1, ?_⟩
    intro v hv
    simp only [run, rx_values_append, List.mem_append] at hv
    rcases hv with hv | hv
    · exact handle_rx_values_lt high hbro e hinv v hv
    · exact k2 v hv

theorem width_invariant_start (own : Nat) :
    width_invariant false (Brotocol_Slave_Start own).1 := by
  simp [width_invariant, Brotocol_Slave_Start, Brotocol_Reset, hbro_zero]

/-- C19: for every sequence of level events and timer expiries, applied to the freshly
started slave, in which no two High level events occur without a Low level
event between them, the state reached has `current_bit ≤ ADDRESS_N` and
address accumulator below `2 ^ ADDRESS_N` in ReceivingAddress, and
`current_bit ≤ DATA_N` and data accumulator below `2 ^ DATA_N` in
ReceivingData and Done; every value passed to `Brotocol_Rx_Callback` is below
`2 ^ DATA_N`; and whenever a further event of such a sequence executes
`0x1 << current_bit`, `current_bit` is below the width of the active field. -/
theorem widths_kept_when_levels_alternate (own : Nat) (es : List event_t)
    (halt : no_repeated_high false es = true) :
    ((run (Brotocol_Slave_Start own).1 es).1.brotocol_state = BROTOCOL_ADDRESS →
        (run (Brotocol_Slave_Start own).1 es).1.current_bit ≤ ADDRESS_N
        ∧ (run (Brotocol_Slave_Start own).1 es).1.address < 2 ^ ADDRESS_N)
    ∧ ((run (Brotocol_Slave_Start own).1 es).1.brotocol_state = BROTOCOL_DATA
          ∨ (run (Brotocol_Slave_Start own).1 es).1.brotocol_state = BROTOCOL_END →
        (run (Brotocol_Slave_Start own).1 es).1.current_bit ≤ DATA_N
        ∧ (run (Brotocol_Slave_Start own).1 es).1.data < 2 ^ DATA_N)
    ∧ (∀ v ∈ rx_values (run (Brotocol_Slave_Start own).1 es).2, v < 2 ^ DATA_N)
    ∧ (∀ e, no_repeated_high false (es ++ [e]) = true →
        (shifts_address (run (Brotocol_Slave_Start own).1 es).1 e →
          (run (Brotocol_Slave_Start own).1 es).1.current_bit < ADDRESS_N)
        ∧ (shifts_data (run (Brotocol_Slave_Start own).1 es).1 e →
          (run (Brotocol_Slave_Start own).1 es).1.current_bit < DATA_N)) := by
  obtain ⟨hinv, hrx⟩ :=
    run_width_invariant false (Brotocol_Slave_Start own).1 es (width_invariant_start own) halt
  generalize (run (Brotocol_Slave_Start own).1 es).1 = s at hinv
  obtain ⟨a, m, d, st, w, k, smp, cb⟩ := s
  refine ⟨?_, ?_, hrx, ?_⟩
  · intro hs
    simp only at hs
    subst hs
    simp only [width_invariant] at hinv
    exact ⟨hinv.2.2.1,
      Nat.lt_of_lt_of_le hinv.2.1 (Nat.pow_le_pow_right (by decide) hinv.2.2.1)⟩
  · intro hs
    simp only at hs
    rcases hs with hs | hs <;> subst hs <;> simp only [width_invariant] at hinv
    · exact ⟨hinv.2.1, Nat.lt_of_lt_of_le hinv.1 (Nat.pow_le_pow_right (by decide) hinv.2.1)⟩
    · exact ⟨hinv.2, hinv.1⟩
  · intro e he
    rw [no_repeated_high_append, halt, Bool.true_and] at he
    constructor
    · rintro ⟨hs, rfl, -, -⟩
      simp only at hs
      subst hs
      simp only [width_invariant] at hinv
      exact hinv.2.2.2 (by simpa [no_repeated_high] using he)
    · rintro ⟨hs, rfl, -, -⟩
      simp only at hs
      subst hs
      simp only [width_invariant] at hinv
      exact hinv.2.2 (by simpa [no_repeated_high] using he)

set_option maxRecDepth 1000000 in
theorem widths_kept_when_levels_alternate_witness :
    no_repeated_high false (frame_events 0x0b 1) = true
    ∧ ∀ v ∈ rx_values (run (Brotocol_Slave_Start 0x0b).1 (frame_events 0x0b 1)).2,
        v < 2 ^ DATA_N :=
  ⟨by decide,
    (widths_kept_when_levels_alternate 0x0b (frame_events 0x0b 1) (by decide)).2.2.1⟩

/-! ## The master releases the line before returning -/

theorem last_drive_append_of_some (xs ys : List hal_t) (t : bus_state_t)
    (h : last_drive ys = some t) : last_drive (xs ++ ys) = some t := by
  induction xs with
  | nil => exact h
  | cons x xs ih => cases x <;> simp [last_drive, ih]

theorem last_drive_append_of_none (xs ys : List hal_t) (h : last_drive ys = none) :
    last_drive (xs ++ ys) = last_drive xs := by
  induction xs with
  | nil => simpa [last_drive] using h
  | cons x xs ih => cases x <;> simp [last_drive, ih]

theorem last_drive_wait (n : Nat) : last_drive (wait n) = none := by
  induction n with
  | zero => rfl
  | succ n ih =>
    simp only [wait, List.replicate_succ, last_drive] at ih ⊢
    exact ih

theorem last_drive_ack_query_head (read : bus_state_t) :
    last_drive (ack_query_head read) = some BUS_HIGH := by
  have h1 : last_drive (wait 3 ++ [get_bus_state read]) = none := by
    rw [last_drive_append_of_none (wait 3) [get_bus_state read] rfl, last_drive_wait]
  have h2 : last_drive (set_bus_state BUS_HIGH :: (wait 3 ++ [get_bus_state read]))
      = some BUS_HIGH := by
    simp [last_drive, h1]
  have e : ack_query_head read
      = ([set_bus_state BUS_LOW] ++ wait 2)
          ++ set_bus_state BUS_HIGH :: (wait 3 ++ [get_bus_state read]) := by
    simp [ack_query_head, shape]
  rw [e]
  exact last_drive_append_of_some _ _ _ h2

theorem last_drive_ack_query_shape (read : bus_state_t) :
    last_drive (ack_query_shape read) = some BUS_HIGH := by
  rw [ack_query_shape, last_drive_append_of_none _ _ (last_drive_wait 5)]
  exact last_drive_ack_query_head read

theorem last_drive_transmit (address data : Int) (ack1 ack2 : bus_state_t) :
    last_drive (transmit address data ack1 ack2).2 = some BUS_HIGH := by
  have key : ∀ (xs ys : List hal_t), last_drive ys = some BUS_HIGH →
      last_drive (config_bus :: (xs ++ ys)) = some BUS_HIGH := by
    intro xs ys h
    simp only [last_drive]
    exact last_drive_append_of_some xs ys _ h
  rw [transmit_eq]
  split_ifs
  · exact key _ _ (last_drive_ack_query_head ack1)
  · exact key _ _ (last_drive_ack_query_head ack2)
  · exact key _ _ (last_drive_ack_query_shape ack2)

theorem getopt_loop_error (v : locals_t) (argv : List opt_t) (status : Nat)
    (h : getopt_loop v argv = .error status) : status = EXIT_ERROR := by
  induction argv generalizing v with
  | nil => simp [getopt_loop] at h
  | cons o rest ih =>
    cases o with
    | a optarg =>
      simp only [getopt_loop] at h
      split_ifs at h
      · injection h with h; exact h.symm
      · exact ih _ h
    | d optarg =>
      simp only [getopt_loop] at h
      split_ifs at h
      · injection h with h; exact h.symm
      · exact ih _ h
    | q =>
      simp only [getopt_loop] at h
      exact ih _ h
    | unknown =>
      simp only [getopt_loop] at h
      injection h with h; exact h.symm

theorem main_cases (argv : List opt_t) (ack1 ack2 : bus_state_t) :
    main argv ack1 ack2 = (EXIT_ERROR, [])
      ∨ ∃ address data, main argv ack1 ack2 = transmit address data ack1 ack2 := by
  unfold main
  split
  · next status h =>
    left
    rw [getopt_loop_error _ _ _ h]
  · next v h =>
    split_ifs
    · exact Or.inr ⟨v.address, v.data, rfl⟩
    · exact Or.inl rfl

/-- C20: whenever `main` returns `EXIT_OK`, `EXIT_ADDR_NACK` or `EXIT_DATA_NACK`, for
every command line and every pair of Ack samples, the last `set_bus_state`
call it has made is `set_bus_state (BUS_HIGH)`: the master does not return
while driving the line Low.  The same holds for the transmission of every
address and data. -/
theorem master_releases_before_return (argv : List opt_t) (address data : Int)
    (ack1 ack2 : bus_state_t) :
    ((main argv ack1 ack2).1 = EXIT_OK ∨ (main argv ack1 ack2).1 = EXIT_ADDR_NACK
        ∨ (main argv ack1 ack2).1 = EXIT_DATA_NACK →
      last_drive (main argv ack1 ack2).2 = some BUS_HIGH)
    ∧ last_drive (transmit address data ack1 ack2).2 = some BUS_HIGH
    ∧ ((transmit address data ack1 ack2).1 = EXIT_OK
        ∨ (transmit address data ack1 ack2).1 = EXIT_ADDR_NACK
        ∨ (transmit address data ack1 ack2).1 = EXIT_DATA_NACK) := by
  refine ⟨?_, last_drive_transmit address data ack1 ack2, ?_⟩
  · intro h
    rcases main_cases argv ack1 ack2 with he | ⟨a, d, he⟩
    · rw [he] at h
      simp [EXIT_ERROR, EXIT_OK, EXIT_ADDR_NACK, EXIT_DATA_NACK] at h
    · rw [he]
      exact last_drive_transmit a d ack1 ack2
  · rw [transmit_eq]
    split_ifs <;> simp

theorem master_releases_before_return_witness :
    (main [opt_t.a 0x0b, opt_t.d 1] BUS_HIGH BUS_LOW).1 = EXIT_ADDR_NACK
    ∧ last_drive (main [opt_t.a 0x0b, opt_t.d 1] BUS_HIGH BUS_LOW).2 = some BUS_HIGH :=
  ⟨by decide,
    (master_releases_before_return [opt_t.a 0x0b, opt_t.d 1] 0x0b 1 BUS_HIGH BUS_LOW).1
      (Or.inr (Or.inl (by decide)))⟩

end Brotocol
